import Mathlib

/-!
Verification of the component container and lifecycle orchestrator
(`core/src/components/component_context.cpp`).

The development shallowly embeds the dependency-graph maintenance
(`AddDependency`, `FindDependencyPathDfs`, `CheckForDependencyCycle`,
`DoFindComponent`, `GetLoadingComponentName`), the lifecycle phase driver
(`ProcessSingleComponentLifetimeStageSwitching`,
`ProcessAllComponentLifetimeStageSwitchings`, `OnAllComponentsAreStopping`,
`ClearComponents`) and `CancelComponentsLoad`.

State is passed explicitly; C++ exceptions become explicit error values that
are returned together with the state reached at the throw point; the log
surface is a list of structured log lines carried in the state.
-/

namespace Components

/-- Component names (`std::string` keys of the `components_` map). -/
abbrev Name := String

/-- An opaque fiber identity (`engine::impl::TaskContext*` used as the key of
`task_to_component_map_`). -/
abbrev TaskId := Nat

/-- `impl::ComponentLifetimeStage`. -/
inductive ComponentLifetimeStage
  | kNull
  | kCreateComponentCalled
  | kRunning
  | kReadyForClearing
  deriving DecidableEq, Repr

/-- Per-component record (`impl::ComponentInfo`).  Its class body lives in
`component_context_component_info.hpp` which is not part of the sources;
the fields are modelled from the spec (§3, §4.1): an instance slot, the
current stage, the two edge sets, the `stage_switching_cancelled` flag, and
a counter of `OnLoadingCancelled` notifications (modelled from the spec:
`OnLoadingCancelled` notifies the component; we record how many times the
notification was delivered). -/
structure ComponentInfo where
  component : Option Unit := none
  stage : ComponentLifetimeStage := .kNull
  it_depends_on : List Name := []
  depends_on_it : List Name := []
  stage_switching_cancelled : Bool := false
  on_loading_cancelled_calls : Nat := 0
  deriving DecidableEq, Repr

/-- Structured log lines (the log surface that matters to the claims:
dependency-resolution lines, the circular-dependency diagnostic, and the
per-component lifecycle handler calls). -/
inductive LogLine
  | text (s : String)
  | handlerCalled (handler : String) (component : Name)
  | handlerErrorLogged (handler : String) (component : Name)
  | handlerWarnLogged (handler : String) (component : Name)
  deriving DecidableEq, Repr

/-- Errors thrown by the container code.  `runtimeError` is a
`std::runtime_error` carrying its message; `outOfRange` is the
`std::out_of_range` thrown by `std::map::at` on a missing key. -/
inductive CtxError
  | runtimeError (msg : String)
  | outOfRange
  deriving DecidableEq, Repr

/-- The mutable state of `ComponentContext` that the claims are about. -/
structure ComponentContext where
  components : List (Name × ComponentInfo)
  task_to_component_map : List (TaskId × Name) := []
  components_load_cancelled : Bool := false
  print_adding_components_stopped : Bool := false
  log : List LogLine := []
  deriving DecidableEq, Repr

/-- The declared component names (keys of the `components_` map). -/
def ComponentContext.keys (st : ComponentContext) : List Name :=
  st.components.map Prod.fst

/-- Update every entry of the association list whose key is `name`
(`components_.at(name)->...` mutating the info in place; keys are unique in
the C++ `std::map`, so updating all matches is the same operation). -/
def updateInfo (l : List (Name × ComponentInfo)) (name : Name)
    (f : ComponentInfo → ComponentInfo) : List (Name × ComponentInfo) :=
  l.map fun p => if p.1 = name then (p.1, f p.2) else p

/-- `ComponentContext::GetLoadingComponentName`: look the current fiber up in
`task_to_component_map_`; a missing entry (`std::map::at` throwing) is turned
into the `runtime_error` below — the `LookupOutsideConstruction` failure. -/
def getLoadingComponentName (st : ComponentContext) (task : TaskId) :
    Except CtxError Name :=
  match st.task_to_component_map.lookup task with
  | some n => .ok n
  | none => .error (.runtimeError
      "FindComponent() can be called only from a task of component creation")

/-- The reverse-edge graph used by the cycle check: the `depends_on_it` set of
each component (empty for names outside the map — in the C++ code the DFS
only ever visits map keys, see `graphWF`). -/
def depsOnItGraph (st : ComponentContext) : Name → List Name := fun n =>
  (Option.map ComponentInfo.depends_on_it (st.components.lookup n)).getD []

/-- The loop body of `ComponentContext::FindDependencyPathDfs`:
`ForEachDependsOnIt` iterating the neighbor list, recursing (through `dfsf`)
into every neighbor that is neither already found past nor handled.
Accumulator triple: (found, handled, dependency_path). -/
def dfsNeighbors (dfsf : Name → List Name → List Name → Bool × List Name × List Name) :
    List Name → Bool → List Name → List Name → Bool × List Name × List Name
  | [], found, handled, path => (found, handled, path)
  | n :: rest, found, handled, path =>
    if !found && !(handled.contains n) then
      let r := dfsf n handled path
      dfsNeighbors dfsf rest r.1 r.2.1 r.2.2
    else
      dfsNeighbors dfsf rest found handled path

/-- `ComponentContext::FindDependencyPathDfs` (fuelled; the C++ recursion
terminates because `handled` grows inside the finite key set, and every use
below supplies fuel exceeding the number of components, which
`findDependencyPathDfs_spec` proves sufficient): insert `current` into
`handled`, test `current == target`, iterate `depends_on_it` of `current`,
and push `current` onto the path when found. -/
def findDependencyPathDfs (g : Name → List Name) (target : Name) :
    Nat → Name → List Name → List Name → Bool × List Name × List Name
  | 0, _, handled, path => (false, handled, path)
  | fuel + 1, current, handled, path =>
    let handled1 := current :: handled
    let found0 := current == target
    let r := dfsNeighbors (findDependencyPathDfs g target fuel) (g current)
      found0 handled1 path
    if r.1 then (true, r.2.1, r.2.2 ++ [current]) else (false, r.2.1, r.2.2)

/-- `ComponentContext::CheckForDependencyCycle`: run the DFS from the edge
source looking for the edge target over the reverse edges; on success append
the target to the chain, log the joined chain, and throw
`std::runtime_error("circular components dependency")`.  Returns the log line
and the thrown error when a cycle is found, `none` otherwise. -/
def checkForDependencyCycle (st : ComponentContext)
    (new_dependency_from new_dependency_to : Name) :
    Option (LogLine × CtxError) :=
  let r := findDependencyPathDfs (depsOnItGraph st) new_dependency_to
    (st.components.length + 1) new_dependency_from [] []
  if r.1 then
    let dependency_chain := r.2.2 ++ [new_dependency_to]
    some (.text ("Found circular dependency between components: " ++
            String.intercalate " -> " dependency_chain),
          .runtimeError "circular components dependency")
  else none

/-- `ComponentInfo::AddItDependsOn` / `AddDependsOnIt`: set insertion into an
edge set (membership-idempotent, like `std::set::insert`). -/
def addEdge (l : List Name) (n : Name) : List Name :=
  if l.contains n then l else l ++ [n]

/-- `ComponentInfo::AddItDependsOn name` as a function on the record. -/
def addItDependsOnF (name : Name) : ComponentInfo → ComponentInfo :=
  fun i => { i with it_depends_on := addEdge i.it_depends_on name }

/-- `ComponentInfo::AddDependsOnIt current` as a function on the record. -/
def addDependsOnItF (current : Name) : ComponentInfo → ComponentInfo :=
  fun i => { i with depends_on_it := addEdge i.depends_on_it current }

/-- Both half-edge insertions of `AddDependency` (lines 263-264). -/
def addBothEdges (l : List (Name × ComponentInfo)) (current name : Name) :
    List (Name × ComponentInfo) :=
  updateInfo (updateInfo l current (addItDependsOnF name)) name
    (addDependsOnItF current)

/-- `ComponentContext::AddDependency` (threading the state; an error result
leaves the state exactly where the C++ code was when it threw):
resolve the calling component, return early if the edge already exists,
otherwise log, run the cycle check, and add the two half-edges. -/
def addDependency (st : ComponentContext) (task : TaskId) (name : Name) :
    Option CtxError × ComponentContext :=
  match getLoadingComponentName st task with
  | .error e => (some e, st)
  | .ok current_component_name =>
    match st.components.lookup current_component_name with
    | none => (some .outOfRange, st)
    | some finfo =>
      if finfo.it_depends_on.contains name then (none, st)
      else
        let st := { st with log := st.log ++
          [.text ("Resolving dependency " ++ current_component_name ++
            " -> " ++ name)] }
        match checkForDependencyCycle st current_component_name name with
        | some (logline, e) => (some e, { st with log := st.log ++ [logline] })
        | none =>
          let comps1 := updateInfo st.components current_component_name
            (addItDependsOnF name)
          let st := { st with components := comps1 }
          match st.components.lookup name with
          | none => (some .outOfRange, st)
          | some _ =>
            let comps2 := updateInfo st.components name
              (addDependsOnItF current_component_name)
            (none, { st with components := comps2 })

/-- Result of `DoFindComponent`: an error, an already-constructed component,
or a suspension in `WaitAndGetComponent` (the component is not built yet). -/
inductive FindResult
  | error (e : CtxError)
  | found
  | waiting
  deriving DecidableEq, Repr

/-- `ComponentContext::DoFindComponent`: add the dependency edge, then either
return the constructed component or log and block waiting for it. -/
def doFindComponent (st : ComponentContext) (task : TaskId) (name : Name) :
    FindResult × ComponentContext :=
  match addDependency st task name with
  | (some e, st') => (.error e, st')
  | (none, st') =>
    match st'.components.lookup name with
    | none => (.error .outOfRange, st')
    | some info =>
      match info.component with
      | some _ => (.found, st')
      | none =>
        (.waiting, { st' with log := st'.log ++
          [.text ("component " ++ name ++ " is not loaded yet")] })

/-- Reachability along a neighbor-list graph (the spec's "name is reachable
from from by following reverse edges"). -/
inductive Reach (g : Name → List Name) : Name → Name → Prop
  | refl (a : Name) : Reach g a a
  | step {a b c : Name} : b ∈ g a → Reach g b c → Reach g a c

/-- Well-formedness of the context used by the cycle check: every name in a
`depends_on_it` set is a key of the components map (which the C++ code
guarantees, since `AddDependsOnIt` is only reached through
`components_.at(name)` and only ever inserts the name of a registered
loading component). -/
def GraphWF (st : ComponentContext) : Prop :=
  ∀ p ∈ st.components, ∀ m ∈ p.2.depends_on_it,
    (st.components.lookup m).isSome = true

instance (st : ComponentContext) : Decidable (GraphWF st) := by
  unfold GraphWF
  infer_instance

/-! ## Lifecycle phase driver -/

/-- `components::DependencyType`. -/
inductive DependencyType
  | kNormal
  | kInverted
  deriving DecidableEq, Repr

/-- `ComponentLifetimeStageSwitchingParams` (the per-phase descriptor; the
handler member-function pointer is represented by its display name together
with the per-component behavior map passed to the driver). -/
structure ComponentLifetimeStageSwitchingParams where
  next_stage : ComponentLifetimeStage
  stage_switch_handler_name : String
  dependency_type : DependencyType
  allow_cancelling : Bool
  deriving DecidableEq, Repr

/-- What a component's stage-switch handler (external component code invoked
through `params.stage_switch_handler`) does when called. -/
inductive HandlerBehavior
  | ok
  | throwsCancel
  | throwsOther
  deriving DecidableEq, Repr

/-- The exception (if any) escaping one component's lifecycle fiber. -/
inductive Thrown
  | stageSwitchingCancelled
  | otherException
  deriving DecidableEq, Repr

/-- The exception (if any) escaping the phase driver. -/
inductive DriverExc
  | fromFiber (t : Thrown)
  | logicError
  deriving DecidableEq, Repr

/-- Set `stage_switching_cancelled` on every `ComponentInfo`. -/
def setStageSwitchingCancelledAll (c : List (Name × ComponentInfo)) (b : Bool) :
    List (Name × ComponentInfo) :=
  c.map fun p => (p.1, { p.2 with stage_switching_cancelled := b })

/-- `ComponentContext::CancelComponentLifetimeStageSwitching`. -/
def cancelComponentLifetimeStageSwitching (st : ComponentContext) :
    ComponentContext :=
  { st with components := setStageSwitchingCancelledAll st.components true }

/-- `ComponentContext::PrepareComponentLifetimeStageSwitching`. -/
def prepareComponentLifetimeStageSwitching (st : ComponentContext) :
    ComponentContext :=
  { st with components := setStageSwitchingCancelledAll st.components false }

/-- `ComponentInfo::SetStage` for one component of the context. -/
def setStageOf (st : ComponentContext) (name : Name)
    (s : ComponentLifetimeStage) : ComponentContext :=
  { st with components :=
      updateInfo st.components name (fun i => { i with stage := s }) }

/-- The neighbor set waited on by `wait_cb`: `it_depends_on` for a Normal
phase, `depends_on_it` for an Inverted phase. -/
def dependencyWaitList (params : ComponentLifetimeStageSwitchingParams)
    (i : ComponentInfo) : List Name :=
  match params.dependency_type with
  | .kNormal => i.it_depends_on
  | .kInverted => i.depends_on_it

/-- The wait loop of `ProcessSingleComponentLifetimeStageSwitching`.
Modelled from the spec: `ComponentInfo::WaitStage` (whose body is in the
header that is not among the sources) blocks until the target stage is
reached or `stage_switching_cancelled` is set, failing with
`StageSwitchingCancelled` in the latter case.  In this sequential embedding
a wait on a component whose stage is still pending succeeds (the stage is
eventually reached) unless that component's cancellation flag is set, in
which case the wait throws. -/
def waitThrowsCancelled (params : ComponentLifetimeStageSwitchingParams)
    (comps : List (Name × ComponentInfo)) (i : ComponentInfo) : Bool :=
  (dependencyWaitList params i).any fun n =>
    match comps.lookup n with
    | some o => o.stage != params.next_stage && o.stage_switching_cancelled
    | none => false

/-- `ComponentContext::ProcessSingleComponentLifetimeStageSwitching`, run for
component `name` on one fiber: do the dependency waits, invoke the handler,
and translate exceptions exactly as the `try`/`catch` ladder does
(`StageSwitchingCancelled`: warn, set stage, rethrow; other exceptions:
log error, then under `allow_cancelling` mark this info cancelled, flip the
phase flag (broadcasting cancellation the first time), set stage and
rethrow, and without `allow_cancelling` swallow and fall through to the
unconditional stage switch).  Returns the exception leaving the fiber, the
new context and the phase-cancelled flag. -/
def processSingleComponentLifetimeStageSwitching
    (params : ComponentLifetimeStageSwitchingParams)
    (behavior : HandlerBehavior) (name : Name)
    (st : ComponentContext) (cancel_flag : Bool) :
    Option Thrown × ComponentContext × Bool :=
  match st.components.lookup name with
  | none => (none, st, cancel_flag)
  | some info =>
    if waitThrowsCancelled params st.components info then
      let st := { st with log := st.log ++
        [.handlerWarnLogged params.stage_switch_handler_name name] }
      (some .stageSwitchingCancelled, setStageOf st name params.next_stage,
        cancel_flag)
    else
      let st := { st with log := st.log ++
        [.handlerCalled params.stage_switch_handler_name name] }
      match behavior with
      | .ok => (none, setStageOf st name params.next_stage, cancel_flag)
      | .throwsCancel =>
        let st := { st with log := st.log ++
          [.handlerWarnLogged params.stage_switch_handler_name name] }
        (some .stageSwitchingCancelled, setStageOf st name params.next_stage,
          cancel_flag)
      | .throwsOther =>
        let st := { st with log := st.log ++
          [.handlerErrorLogged params.stage_switch_handler_name name] }
        if params.allow_cancelling then
          let markCancelled := fun (i : ComponentInfo) =>
            { i with stage_switching_cancelled := true }
          let st :=
            { st with components := updateInfo st.components name markCancelled }
          let st := if cancel_flag then st
                    else cancelComponentLifetimeStageSwitching st
          (some .otherException, setStageOf st name params.next_stage, true)
        else
          (none, setStageOf st name params.next_stage, cancel_flag)

/-- The fan-out of `ProcessAllComponentLifetimeStageSwitchings`: one fiber
per component (spawned with `CriticalAsync`; this sequential embedding runs
them to completion in spawn order, one legal schedule of the cooperative
scheduler), collecting for each the exception it ended with. -/
def runLifetimeStageSwitchingTasks
    (params : ComponentLifetimeStageSwitchingParams)
    (behaviors : Name → HandlerBehavior) :
    List Name → ComponentContext → Bool →
      List (Name × Option Thrown) × ComponentContext × Bool
  | [], st, cancel_flag => ([], st, cancel_flag)
  | n :: rest, st, cancel_flag =>
    let r := processSingleComponentLifetimeStageSwitching params
      (behaviors n) n st cancel_flag
    let rs := runLifetimeStageSwitchingTasks params behaviors rest r.2.1 r.2.2
    ((n, r.1) :: rs.1, rs.2)

/-- The await loop of `ProcessAllComponentLifetimeStageSwitchings`: `Get()`
each task in turn, swallowing `StageSwitchingCancelledException`; on any
other exception the outer `catch` flips the phase flag (broadcasting
cancellation if it was not yet set and the phase allows cancelling),
`Wait()`s every remaining task, and rethrows.  Returns the escaping
exception, the names joined (every `Get` or `Wait`), the context and the
flag. -/
def awaitLifetimeStageSwitchingTasks
    (params : ComponentLifetimeStageSwitchingParams) :
    List (Name × Option Thrown) → ComponentContext → Bool →
      Option DriverExc × List Name × ComponentContext × Bool
  | [], st, cancel_flag => (none, [], st, cancel_flag)
  | (n, t) :: rest, st, cancel_flag =>
    match t with
    | some .otherException =>
      let st := if params.allow_cancelling && !cancel_flag then
                  cancelComponentLifetimeStageSwitching st
                else st
      let cancel_flag := if params.allow_cancelling then true else cancel_flag
      (some (.fromFiber .otherException), n :: rest.map Prod.fst, st,
        cancel_flag)
    | _ =>
      let r := awaitLifetimeStageSwitchingTasks params rest st cancel_flag
      (r.1, n :: r.2.1, r.2.2)

/-- `ComponentContext::ProcessAllComponentLifetimeStageSwitchings`: clear all
per-info cancellation flags, spawn and run one fiber per component, await
them all, and finally raise `logic_error` if the phase was cancelled but
only cancellation exceptions were observed.  The per-phase atomic
`is_component_lifetime_stage_switchings_cancelled` starts out false.
Returns the escaping exception, the joined fiber names, and the context. -/
def processAllComponentLifetimeStageSwitchings
    (params : ComponentLifetimeStageSwitchingParams)
    (behaviors : Name → HandlerBehavior) (st : ComponentContext) :
    Option DriverExc × List Name × ComponentContext :=
  let st := prepareComponentLifetimeStageSwitching st
  let names := st.components.map Prod.fst
  let r := runLifetimeStageSwitchingTasks params behaviors names st false
  let a := awaitLifetimeStageSwitchingTasks params r.1 r.2.1 r.2.2
  match a with
  | (some e, joined, st, _) => (some e, joined, st)
  | (none, joined, st, flag) =>
    if flag then (some .logicError, joined, st) else (none, joined, st)

/-- The phase parameters of `OnAllComponentsAreStopping` (line 93). -/
def onAllComponentsAreStoppingParams : ComponentLifetimeStageSwitchingParams :=
  { next_stage := .kReadyForClearing,
    stage_switch_handler_name := "OnAllComponentsAreStopping()",
    dependency_type := .kInverted,
    allow_cancelling := false }

/-- The phase parameters of the clearing phase of `ClearComponents`
(line 105). -/
def clearComponentsParams : ComponentLifetimeStageSwitchingParams :=
  { next_stage := .kNull,
    stage_switch_handler_name := "ClearComponent()",
    dependency_type := .kInverted,
    allow_cancelling := false }

/-- `ComponentContext::OnAllComponentsAreStopping`. -/
def onAllComponentsAreStopping (behaviors : Name → HandlerBehavior)
    (st : ComponentContext) :
    Option DriverExc × List Name × ComponentContext :=
  processAllComponentLifetimeStageSwitchings onAllComponentsAreStoppingParams
    behaviors st

/-- `ComponentContext::StopPrintAddingComponentsTask` (sets the stop flag and
joins the reporter fiber). -/
def stopPrintAddingComponentsTask (st : ComponentContext) : ComponentContext :=
  { st with print_adding_components_stopped := true }

/-- `ComponentContext::ClearComponents`: stop the progress reporter, run the
full `OnAllComponentsAreStopping` phase, then run the clearing phase
(`ClearComponent()`, target stage `kNull`, inverted, non-cancelling).
`b1`/`b2` are the handler behaviors of the two phases. -/
def clearComponents (b1 b2 : Name → HandlerBehavior) (st : ComponentContext) :
    Option DriverExc × ComponentContext :=
  let st := stopPrintAddingComponentsTask st
  match onAllComponentsAreStopping b1 st with
  | (some e, _, st') => (some e, st')
  | (none, _, st') =>
    let r := processAllComponentLifetimeStageSwitchings clearComponentsParams
      b2 st'
    (r.1, r.2.2)

/-- `ComponentInfo::OnLoadingCancelled` — modelled from the spec: notifies
the component that loading was cancelled (waking blocked `FindComponent`
callers); recorded here as a delivery count. -/
def onLoadingCancelled (i : ComponentInfo) : ComponentInfo :=
  { i with on_loading_cancelled_calls := i.on_loading_cancelled_calls + 1 }

/-- `ComponentContext::CancelComponentsLoad`: broadcast stage-switching
cancellation, then (`test_and_set` on the atomic flag) deliver
`OnLoadingCancelled` to every component exactly on the first call. -/
def cancelComponentsLoad (st : ComponentContext) : ComponentContext :=
  let st := cancelComponentLifetimeStageSwitching st
  if st.components_load_cancelled then st
  else
    let notified := st.components.map fun p => (p.1, onLoadingCancelled p.2)
    { st with components_load_cancelled := true, components := notified }

/-! ## Statement-level predicates and concrete contexts -/

/-- Every component's `stage_switching_cancelled` flag is clear. -/
def AllFlagsFalse (c : List (Name × ComponentInfo)) : Prop :=
  ∀ p ∈ c, p.2.stage_switching_cancelled = false

instance (c : List (Name × ComponentInfo)) : Decidable (AllFlagsFalse c) := by
  unfold AllFlagsFalse
  infer_instance

/-- Every component's `stage_switching_cancelled` flag is set (the
broadcast effect of `CancelComponentLifetimeStageSwitching`). -/
def AllCancelled (c : List (Name × ComponentInfo)) : Prop :=
  ∀ p ∈ c, p.2.stage_switching_cancelled = true

instance (c : List (Name × ComponentInfo)) : Decidable (AllCancelled c) := by
  unfold AllCancelled
  infer_instance

/-- Every component sits at stage `s`. -/
def AllStages (c : List (Name × ComponentInfo)) (s : ComponentLifetimeStage) :
    Prop :=
  ∀ p ∈ c, p.2.stage = s

instance (c : List (Name × ComponentInfo)) (s : ComponentLifetimeStage) :
    Decidable (AllStages c s) := by
  unfold AllStages
  infer_instance

/-- Whether a log line is one of the per-component lifecycle lines of the
phase whose handler display name is `h`. -/
def eventOfHandler (h : String) : LogLine → Bool
  | .handlerCalled h' _ => h' == h
  | .handlerWarnLogged h' _ => h' == h
  | .handlerErrorLogged h' _ => h' == h
  | .text _ => false

/-- The exception leaving a fiber of a non-cancelling phase, as a function
of the handler behavior (`StageSwitchingCancelled` is rethrown, anything
else is swallowed). -/
def ncThrown : HandlerBehavior → Option Thrown
  | .throwsCancel => some .stageSwitchingCancelled
  | _ => none

/-- The log lines a fiber of a non-cancelling phase appends for one
component: the invocation line, plus the warning (cancel) or error (other
exception) line. -/
def ncLog (h : String) (n : Name) : HandlerBehavior → List LogLine
  | .ok => [.handlerCalled h n]
  | .throwsCancel => [.handlerCalled h n, .handlerWarnLogged h n]
  | .throwsOther => [.handlerCalled h n, .handlerErrorLogged h n]

/-- The lockstep-edge property at one pair of declared components: if both
names are present, the forward half-edge is present exactly when the reverse
half-edge is. -/
def edgeSymAt (st : ComponentContext) (a b : Name) : Prop :=
  match st.components.lookup a, st.components.lookup b with
  | some ia, some ib =>
    ia.it_depends_on.contains b = ib.depends_on_it.contains a
  | _, _ => True

instance (st : ComponentContext) (a b : Name) : Decidable (edgeSymAt st a b) := by
  unfold edgeSymAt
  cases st.components.lookup a <;> cases st.components.lookup b <;>
    exact inferInstanceAs (Decidable _)

/-- Invariant 3 of the spec: for every pair of declared components the two
half-edges agree. -/
def EdgeSym (st : ComponentContext) : Prop :=
  ∀ a ∈ st.keys, ∀ b ∈ st.keys, edgeSymAt st a b

instance (st : ComponentContext) : Decidable (EdgeSym st) := by
  unfold EdgeSym
  infer_instance

/-- Concrete context: components `A` and `B`, the edge `A → B` already
recorded, task 0 currently building `B` (the state reached in the spec's
cycle-rejection scenario right before `B`'s factory looks up `A`). -/
def ctxAB : ComponentContext :=
  { components := [("A", { it_depends_on := ["B"] }),
                   ("B", { depends_on_it := ["A"] })],
    task_to_component_map := [(0, "B")] }

/-- Concrete context isomorphic to `ctxAB` but with different component
names (hence a different dependency path when the cycle is hit). -/
def ctxCD : ComponentContext :=
  { components := [("C", { it_depends_on := ["D"] }),
                   ("D", { depends_on_it := ["C"] })],
    task_to_component_map := [(0, "D")] }

/-- Concrete context: task 0 building `A`, which already depends on the
not-yet-constructed `B`. -/
def ctxAB2 : ComponentContext :=
  { components := [("A", { it_depends_on := ["B"] }),
                   ("B", { depends_on_it := ["A"] })],
    task_to_component_map := [(0, "A")] }

/-! ## Helper lemmas about association lists -/

theorem lookup_mem {β : Type} {l : List (Name × β)} {a : Name} {b : β}
    (h : l.lookup a = some b) : (a, b) ∈ l := by
  induction l with
  | nil => simp [List.lookup] at h
  | cons p tl ih =>
    rcases p with ⟨k, v⟩
    rw [List.lookup] at h
    by_cases hk : a == k
    · simp [hk] at h
      subst h
      have : a = k := by simpa using hk
      subst this
      exact List.mem_cons_self _ _
    · simp [Bool.of_not_eq_true hk] at h
      exact List.mem_cons_of_mem _ (ih h)

theorem lookup_isSome_mem_keys {β : Type} {l : List (Name × β)} {a : Name}
    (h : (l.lookup a).isSome = true) : a ∈ l.map Prod.fst := by
  cases hl : l.lookup a with
  | none => rw [hl] at h; simp at h
  | some b =>
    have := lookup_mem hl
    exact List.mem_map.mpr ⟨(a, b), this, rfl⟩

theorem lookup_cons_self {β : Type} (a : Name) (v : β) (tl : List (Name × β)) :
    List.lookup a ((a, v) :: tl) = some v := by
  simp [List.lookup]

theorem lookup_cons_ne {β : Type} {a k : Name} (v : β) (tl : List (Name × β))
    (h : a ≠ k) : List.lookup a ((k, v) :: tl) = List.lookup a tl := by
  have hb : (a == k) = false := by simpa using h
  simp [List.lookup, hb]

theorem mem_keys_lookup_isSome {β : Type} {l : List (Name × β)} {a : Name}
    (h : a ∈ l.map Prod.fst) : (l.lookup a).isSome = true := by
  induction l with
  | nil => simp at h
  | cons p tl ih =>
    rcases p with ⟨k, v⟩
    by_cases hk : a = k
    · subst hk; rw [lookup_cons_self]; rfl
    · rw [lookup_cons_ne v tl hk]
      apply ih
      simp at h
      rcases h with h | h
      · exact absurd h hk
      · simpa using h

theorem updateInfo_cons (k : Name) (v : ComponentInfo)
    (tl : List (Name × ComponentInfo)) (name : Name)
    (f : ComponentInfo → ComponentInfo) :
    updateInfo ((k, v) :: tl) name f =
      (if k = name then (k, f v) else (k, v)) :: updateInfo tl name f := by
  simp [updateInfo]

theorem lookup_updateInfo (l : List (Name × ComponentInfo)) (name a : Name)
    (f : ComponentInfo → ComponentInfo) :
    (updateInfo l name f).lookup a =
      if a = name then (l.lookup a).map f else l.lookup a := by
  induction l with
  | nil => simp [updateInfo, List.lookup]
  | cons p tl ih =>
    rcases p with ⟨k, v⟩
    rw [updateInfo_cons]
    by_cases hk : k = name <;> by_cases ha : a = k
    · subst hk; subst ha
      rw [if_pos rfl, lookup_cons_self, lookup_cons_self, if_pos rfl]
      rfl
    · subst hk
      rw [if_pos rfl, lookup_cons_ne (f v) _ ha, lookup_cons_ne v _ ha, ih]
    · subst ha
      rw [if_neg hk, lookup_cons_self, lookup_cons_self,
        if_neg (fun h : a = name => hk h)]
    · rw [if_neg hk, lookup_cons_ne v _ ha, lookup_cons_ne v _ ha, ih]

theorem keys_updateInfo (l : List (Name × ComponentInfo)) (name : Name)
    (f : ComponentInfo → ComponentInfo) :
    (updateInfo l name f).map Prod.fst = l.map Prod.fst := by
  induction l with
  | nil => rfl
  | cons p tl ih =>
    rcases p with ⟨k, v⟩
    rw [updateInfo_cons]
    by_cases h : k = name <;> simp [h, ih]

/-! ## Correctness of the cycle-detection DFS -/

theorem dfsNeighbors_true
    (dfsf : Name → List Name → List Name → Bool × List Name × List Name)
    (ns : List Name) (handled path : List Name) :
    dfsNeighbors dfsf ns true handled path = (true, handled, path) := by
  induction ns with
  | nil => rfl
  | cons n rest ih => simp [dfsNeighbors, ih]

theorem dfsNeighbors_handled_mono
    (dfsf : Name → List Name → List Name → Bool × List Name × List Name)
    (hm : ∀ n handled path x, x ∈ handled → x ∈ (dfsf n handled path).2.1) :
    ∀ ns found handled path x, x ∈ handled →
      x ∈ (dfsNeighbors dfsf ns found handled path).2.1 := by
  intro ns
  induction ns with
  | nil =>
    intro found handled path x hx
    simpa [dfsNeighbors] using hx
  | cons n rest ih =>
    intro found handled path x hx
    by_cases hg : (!found && !(handled.contains n)) = true
    · rw [dfsNeighbors, if_pos hg]
      exact ih _ _ _ x (hm n handled path x hx)
    · rw [dfsNeighbors, if_neg hg]
      exact ih _ _ _ x hx

theorem findDependencyPathDfs_succ_found (g : Name → List Name)
    (target : Name) (fuel : Nat) (current : Name) (handled path : List Name) :
    (findDependencyPathDfs g target (fuel + 1) current handled path).1 =
      (dfsNeighbors (findDependencyPathDfs g target fuel) (g current)
        (current == target) (current :: handled) path).1 := by
  rw [findDependencyPathDfs]
  split
  · next h => exact h.symm
  · next h => simpa using (Bool.not_eq_true _).mp h ▸ rfl

theorem findDependencyPathDfs_succ_handled (g : Name → List Name)
    (target : Name) (fuel : Nat) (current : Name) (handled path : List Name) :
    (findDependencyPathDfs g target (fuel + 1) current handled path).2.1 =
      (dfsNeighbors (findDependencyPathDfs g target fuel) (g current)
        (current == target) (current :: handled) path).2.1 := by
  rw [findDependencyPathDfs]
  split <;> rfl

theorem findDependencyPathDfs_handled_mono (g : Name → List Name)
    (target : Name) :
    ∀ fuel current handled path x, x ∈ handled →
      x ∈ (findDependencyPathDfs g target fuel current handled path).2.1 := by
  intro fuel
  induction fuel with
  | zero =>
    intro current handled path x hx
    simpa [findDependencyPathDfs] using hx
  | succ fuel ih =>
    intro current handled path x hx
    rw [findDependencyPathDfs_succ_handled]
    exact dfsNeighbors_handled_mono _ (fun n h p y hy => ih n h p y hy)
      _ _ _ _ x (List.mem_cons_of_mem _ hx)

theorem dfsNeighbors_sound (g : Name → List Name) (target : Name)
    (dfsf : Name → List Name → List Name → Bool × List Name × List Name)
    (hs : ∀ n handled path, (dfsf n handled path).1 = true → Reach g n target) :
    ∀ ns found handled path,
      (dfsNeighbors dfsf ns found handled path).1 = true →
      found = true ∨ ∃ n, n ∈ ns ∧ Reach g n target := by
  intro ns
  induction ns with
  | nil =>
    intro found handled path h
    left; simpa [dfsNeighbors] using h
  | cons n rest ih =>
    intro found handled path h
    by_cases hg : (!found && !(handled.contains n)) = true
    · rw [dfsNeighbors, if_pos hg] at h
      rcases ih _ _ _ h with hr | ⟨m, hm, hreach⟩
      · right; exact ⟨n, List.mem_cons_self _ _, hs _ _ _ hr⟩
      · right; exact ⟨m, List.mem_cons_of_mem _ hm, hreach⟩
    · rw [dfsNeighbors, if_neg hg] at h
      rcases ih _ _ _ h with hf | ⟨m, hm, hreach⟩
      · left; exact hf
      · right; exact ⟨m, List.mem_cons_of_mem _ hm, hreach⟩

theorem findDependencyPathDfs_sound (g : Name → List Name) (target : Name) :
    ∀ fuel current handled path,
      (findDependencyPathDfs g target fuel current handled path).1 = true →
      Reach g current target := by
  intro fuel
  induction fuel with
  | zero =>
    intro current handled path h
    simp [findDependencyPathDfs] at h
  | succ fuel ih =>
    intro current handled path h
    rw [findDependencyPathDfs_succ_found] at h
    rcases dfsNeighbors_sound g target _ (fun n hh p => ih n hh p) _ _ _ _ h
      with h0 | ⟨m, hm, hreach⟩
    · have : current = target := by simpa using h0
      subst this
      exact Reach.refl current
    · exact Reach.step hm hreach

theorem dfsNeighbors_cons
    (dfsf : Name → List Name → List Name → Bool × List Name × List Name)
    (n : Name) (rest : List Name) (found : Bool) (handled path : List Name) :
    dfsNeighbors dfsf (n :: rest) found handled path =
      if !found && !(handled.contains n) then
        dfsNeighbors dfsf rest (dfsf n handled path).1
          (dfsf n handled path).2.1 (dfsf n handled path).2.2
      else dfsNeighbors dfsf rest found handled path := by
  rw [dfsNeighbors]

/-- The central invariant of the DFS: when the search comes back negative,
the set of handled nodes has grown to contain every neighbor in `ns`, is
closed under the graph's edges on its new elements, and none of the new
elements is the target. -/
theorem dfsNeighbors_complete (g : Name → List Name) (target : Name)
    (keys : List Name)
    (dfsf : Name → List Name → List Name → Bool × List Name × List Name)
    (fuel : Nat)
    (hC : ∀ current handled path, current ∈ keys → current ∉ handled →
      (keys.toFinset \ handled.toFinset).card < fuel →
      (dfsf current handled path).1 = false →
      ((∀ x ∈ handled, x ∈ (dfsf current handled path).2.1) ∧
       current ∈ (dfsf current handled path).2.1 ∧
       (∀ x ∈ (dfsf current handled path).2.1, x ∉ handled →
         x ≠ target ∧ ∀ y ∈ g x, y ∈ (dfsf current handled path).2.1))) :
    ∀ ns found handled path, (∀ n ∈ ns, n ∈ keys) →
      (keys.toFinset \ handled.toFinset).card < fuel →
      (dfsNeighbors dfsf ns found handled path).1 = false →
      ((∀ x ∈ handled, x ∈ (dfsNeighbors dfsf ns found handled path).2.1) ∧
       (∀ n ∈ ns, n ∈ (dfsNeighbors dfsf ns found handled path).2.1) ∧
       (∀ x ∈ (dfsNeighbors dfsf ns found handled path).2.1, x ∉ handled →
         x ≠ target ∧
           ∀ y ∈ g x, y ∈ (dfsNeighbors dfsf ns found handled path).2.1)) := by
  intro ns
  induction ns with
  | nil =>
    intro found handled path hns hcard hfalse
    refine ⟨fun x hx => by simpa [dfsNeighbors] using hx, by simp, ?_⟩
    intro x hx hnx
    simp [dfsNeighbors] at hx
    exact absurd hx hnx
  | cons n rest ih =>
    intro found handled path hns hcard hfalse
    cases found with
    | true =>
      rw [dfsNeighbors_true] at hfalse
      simp at hfalse
    | false =>
      by_cases hc : handled.contains n = true
      · have hmem : n ∈ handled := List.mem_of_elem_eq_true hc
        have hg : ¬((!false && !(handled.contains n)) = true) := by
          rw [hc]; simp
        rw [dfsNeighbors_cons, if_neg hg] at hfalse ⊢
        obtain ⟨A, B, C⟩ := ih false handled path
          (fun m hm' => hns m (List.mem_cons_of_mem _ hm')) hcard hfalse
        refine ⟨A, ?_, C⟩
        intro m hm'
        rcases List.mem_cons.mp hm' with rfl | hm''
        · exact A m hmem
        · exact B m hm''
      · have hnh : n ∉ handled := fun hmem => hc (List.elem_eq_true_of_mem hmem)
        have hg : (!false && !(handled.contains n)) = true := by
          rw [Bool.of_not_eq_true hc]; simp
        rw [dfsNeighbors_cons, if_pos hg] at hfalse ⊢
        cases hrf : (dfsf n handled path).1 with
        | true =>
          rw [hrf] at hfalse
          rw [dfsNeighbors_true] at hfalse
          simp at hfalse
        | false =>
          obtain ⟨A1, B1, C1⟩ := hC n handled path
            (hns n (List.mem_cons_self _ _)) hnh hcard hrf
          have hcard2 :
              (keys.toFinset \ (dfsf n handled path).2.1.toFinset).card < fuel := by
            refine lt_of_le_of_lt (Finset.card_le_card ?_) hcard
            intro x hx
            simp only [Finset.mem_sdiff, List.mem_toFinset] at hx ⊢
            exact ⟨hx.1, fun hh => hx.2 (A1 x hh)⟩
          rw [hrf] at hfalse
          obtain ⟨A2, B2, C2⟩ := ih false (dfsf n handled path).2.1
            (dfsf n handled path).2.2
            (fun m hm' => hns m (List.mem_cons_of_mem _ hm')) hcard2 hfalse
          refine ⟨fun x hx => A2 x (A1 x hx), ?_, ?_⟩
          · intro m hm'
            rcases List.mem_cons.mp hm' with rfl | hm''
            · exact A2 m B1
            · exact B2 m hm''
          · intro x hx hnx
            by_cases hxr : x ∈ (dfsf n handled path).2.1
            · obtain ⟨hne, hcl⟩ := C1 x hxr hnx
              exact ⟨hne, fun y hy => A2 y (hcl y hy)⟩
            · exact C2 x hx hxr

theorem findDependencyPathDfs_complete (g : Name → List Name) (target : Name)
    (keys : List Name) (hwf : ∀ a, ∀ b ∈ g a, b ∈ keys) :
    ∀ fuel current handled path, current ∈ keys → current ∉ handled →
      (keys.toFinset \ handled.toFinset).card < fuel →
      (findDependencyPathDfs g target fuel current handled path).1 = false →
      ((∀ x ∈ handled,
          x ∈ (findDependencyPathDfs g target fuel current handled path).2.1) ∧
       current ∈ (findDependencyPathDfs g target fuel current handled path).2.1 ∧
       (∀ x ∈ (findDependencyPathDfs g target fuel current handled path).2.1,
          x ∉ handled → x ≠ target ∧
            ∀ y ∈ g x,
              y ∈ (findDependencyPathDfs g target fuel current handled path).2.1)) := by
  intro fuel
  induction fuel with
  | zero =>
    intro current handled path _ _ hcard _
    exact absurd hcard (Nat.not_lt_zero _)
  | succ fuel ih =>
    intro current handled path hkey hnh hcard hfalse
    rw [findDependencyPathDfs_succ_found] at hfalse
    rw [findDependencyPathDfs_succ_handled]
    have hbeq : (current == target) = false := by
      cases hb : (current == target) with
      | false => rfl
      | true =>
        rw [hb, dfsNeighbors_true] at hfalse
        simp at hfalse
    have hmem : current ∈ keys.toFinset \ handled.toFinset := by
      simp only [Finset.mem_sdiff, List.mem_toFinset]
      exact ⟨hkey, hnh⟩
    have hcard1 :
        (keys.toFinset \ (current :: handled).toFinset).card < fuel := by
      rw [List.toFinset_cons, Finset.sdiff_insert,
        Finset.card_erase_of_mem hmem]
      have hpos : 0 < (keys.toFinset \ handled.toFinset).card :=
        Finset.card_pos.mpr ⟨current, hmem⟩
      omega
    obtain ⟨A, B, C⟩ := dfsNeighbors_complete g target keys
      (findDependencyPathDfs g target fuel) fuel
      (fun c h p hck hcn hcd hf => ih c h p hck hcn hcd hf)
      (g current) (current == target) (current :: handled) path
      (hwf current) hcard1 hfalse
    refine ⟨?_, ?_, ?_⟩
    · exact fun x hx => A x (List.mem_cons_of_mem _ hx)
    · exact A current (List.mem_cons_self _ _)
    · intro x hx hnx
      by_cases hxc : x = current
      · subst hxc
        refine ⟨fun hxt => by simp [hxt] at hbeq, fun y hy => B y hy⟩
      · exact C x hx (by simp [hxc, hnx])

/-- Full characterisation of the cycle-detection DFS: started on an empty
handled set at a key of the graph, with fuel exceeding the number of keys,
it reports `true` exactly when the target is reachable from the start. -/
theorem findDependencyPathDfs_spec (g : Name → List Name) (target : Name)
    (keys : List Name) (hwf : ∀ a, ∀ b ∈ g a, b ∈ keys) (fuel : Nat)
    (start : Name) (hstart : start ∈ keys) (hfuel : keys.length < fuel) :
    ((findDependencyPathDfs g target fuel start [] []).1 = true ↔
      Reach g start target) := by
  constructor
  · exact findDependencyPathDfs_sound g target fuel start [] []
  · intro hreach
    by_contra hfound
    have hfalse : (findDependencyPathDfs g target fuel start [] []).1 = false :=
      Bool.not_eq_true _ ▸ Bool.of_not_eq_true hfound
    have hcard : (keys.toFinset \ ([] : List Name).toFinset).card < fuel := by
      simp only [List.toFinset_nil, Finset.sdiff_empty]
      exact lt_of_le_of_lt (List.toFinset_card_le keys) hfuel
    obtain ⟨_, hstartR, C⟩ := findDependencyPathDfs_complete g target keys hwf
      fuel start [] [] hstart (by simp) hcard hfalse
    have key : ∀ a c, Reach g a c →
        a ∈ (findDependencyPathDfs g target fuel start [] []).2.1 →
        c = target → False := by
      intro a c h
      induction h with
      | refl a =>
        intro haR heq
        exact (C a haR (by simp)).1 heq
      | step hb _ ihr =>
        intro haR heq
        exact ihr ((C _ haR (by simp)).2 _ hb) heq
    exact key start target hreach hstartR rfl

/-! ## The cycle check -/

theorem depsOnItGraph_wf (st : ComponentContext) (hwf : GraphWF st) :
    ∀ a, ∀ b ∈ depsOnItGraph st a, b ∈ st.keys := by
  intro a b hb
  unfold depsOnItGraph at hb
  cases h : st.components.lookup a with
  | none => rw [h] at hb; simp at hb
  | some i =>
    rw [h] at hb
    simp at hb
    exact lookup_isSome_mem_keys (hwf (a, i) (lookup_mem h) b hb)

theorem checkForDependencyCycle_isSome (st : ComponentContext) (a b : Name) :
    (checkForDependencyCycle st a b).isSome =
      (findDependencyPathDfs (depsOnItGraph st) b (st.components.length + 1)
        a [] []).1 := by
  unfold checkForDependencyCycle
  dsimp only
  split
  · next h => simp [h]
  · next h => simp [Bool.of_not_eq_true h]

theorem checkForDependencyCycle_eq_some (st : ComponentContext) (a b : Name)
    (h : (checkForDependencyCycle st a b).isSome = true) :
    checkForDependencyCycle st a b =
      some (.text ("Found circular dependency between components: " ++
          String.intercalate " -> "
            ((findDependencyPathDfs (depsOnItGraph st) b
              (st.components.length + 1) a [] []).2.2 ++ [b])),
        .runtimeError "circular components dependency") := by
  unfold checkForDependencyCycle at h ⊢
  dsimp only at h ⊢
  split at h
  · next hfound => simp [hfound]
  · simp at h

theorem checkForDependencyCycle_isSome_iff (st : ComponentContext)
    (a b : Name) (hwf : GraphWF st) (ha : a ∈ st.keys) :
    (checkForDependencyCycle st a b).isSome = true ↔
      Reach (depsOnItGraph st) a b := by
  rw [checkForDependencyCycle_isSome]
  exact findDependencyPathDfs_spec (depsOnItGraph st) b st.keys
    (depsOnItGraph_wf st hwf) (st.components.length + 1) a ha
    (by simp [ComponentContext.keys])

theorem checkForDependencyCycle_self (st : ComponentContext) (a : Name) :
    (checkForDependencyCycle st a a).isSome = true := by
  rw [checkForDependencyCycle_isSome, findDependencyPathDfs_succ_found]
  rw [show (a == a) = true from by simp, dfsNeighbors_true]

theorem doFindComponent_error (st : ComponentContext) (task : TaskId)
    (name : Name) (e : CtxError) (st' : ComponentContext)
    (h : addDependency st task name = (some e, st')) :
    doFindComponent st task name = (.error e, st') := by
  unfold doFindComponent
  rw [h]

/-- **C2.** For every graph state and every proposed new edge
`from → name`, the cycle check rejects the edge if and only if `name` is
reachable from `from` by following existing `depends_on_it` (reverse)
edges before the new edge is installed.  (Well-formedness: all reverse
edges point at declared components — which the container maintains — and
the DFS starts at a declared component.) -/
theorem claim_C2_cycle_check_rejects_iff_reachable (st : ComponentContext)
    (new_from new_to : Name) (hwf : GraphWF st) (hfrom : new_from ∈ st.keys) :
    ((checkForDependencyCycle st new_from new_to).isSome = true ↔
      Reach (depsOnItGraph st) new_from new_to) :=
  checkForDependencyCycle_isSome_iff st new_from new_to hwf hfrom

/-- Witness for C2 at `ctxAB`: the proposed edge `B → A` is rejected, and
`A` is indeed reachable from `B` over reverse edges. -/
theorem claim_C2_witness :
    ((checkForDependencyCycle ctxAB "B" "A").isSome = true ↔
      Reach (depsOnItGraph ctxAB) "B" "A") :=
  claim_C2_cycle_check_rejects_iff_reachable ctxAB "B" "A" (by decide)
    (by decide)

/-- What `AddDependency` does when the cycle check fires: the
`runtime_error` is thrown, the two log lines are emitted, and the
components and task maps are exactly as before (the throw happens before
either half-edge is touched). -/
theorem addDependency_cycle (st : ComponentContext) (task : TaskId)
    (name current : Name) (finfo : ComponentInfo)
    (htask : st.task_to_component_map.lookup task = some current)
    (hcur : st.components.lookup current = some finfo)
    (hnoedge : finfo.it_depends_on.contains name = false)
    (hfound : (checkForDependencyCycle st current name).isSome = true) :
    addDependency st task name =
      (some (.runtimeError "circular components dependency"),
       { st with log := st.log ++
          [.text ("Resolving dependency " ++ current ++ " -> " ++ name),
           .text ("Found circular dependency between components: " ++
            String.intercalate " -> "
              ((findDependencyPathDfs (depsOnItGraph st) name
                (st.components.length + 1) current [] []).2.2 ++ [name]))] }) := by
  unfold addDependency getLoadingComponentName
  rw [htask]
  dsimp only
  rw [hcur]
  dsimp only
  rw [hnoedge, if_neg (by simp : ¬(false = true))]
  have hck : checkForDependencyCycle
      { st with log := st.log ++
          [.text ("Resolving dependency " ++ current ++ " -> " ++ name)] }
      current name = checkForDependencyCycle st current name := rfl
  rw [hck, checkForDependencyCycle_eq_some st current name hfound]
  simp

/-- **C1.** A `FindComponent(name)` call whose proposed edge
`current → name` would close a cycle (the target is reachable back from the
source over reverse edges) fails with the `CircularDependency` error and
leaves every `it_depends_on` and `depends_on_it` set exactly as it was:
the components map and the task map of the resulting state are unchanged. -/
theorem claim_C1_cycle_fails_and_leaves_edges (st : ComponentContext)
    (task : TaskId) (name current : Name) (finfo : ComponentInfo)
    (hwf : GraphWF st)
    (htask : st.task_to_component_map.lookup task = some current)
    (hcur : st.components.lookup current = some finfo)
    (hnoedge : finfo.it_depends_on.contains name = false)
    (hcycle : Reach (depsOnItGraph st) current name) :
    (doFindComponent st task name).1 =
        .error (.runtimeError "circular components dependency") ∧
      (doFindComponent st task name).2.components = st.components ∧
      (doFindComponent st task name).2.task_to_component_map =
        st.task_to_component_map := by
  have hmem : current ∈ st.keys :=
    lookup_isSome_mem_keys (by rw [hcur]; rfl)
  have hfound : (checkForDependencyCycle st current name).isSome = true :=
    (checkForDependencyCycle_isSome_iff st current name hwf hmem).mpr hcycle
  have had := addDependency_cycle st task name current finfo htask hcur
    hnoedge hfound
  rw [doFindComponent_error st task name _ _ had]
  exact ⟨rfl, rfl, rfl⟩

/-- Witness for C1: in `ctxAB` (edge `A → B` present, task 0 building `B`)
the lookup of `A` from `B` fails with the circular-dependency error and
changes neither map. -/
theorem claim_C1_witness :
    (doFindComponent ctxAB 0 "A").1 =
        .error (.runtimeError "circular components dependency") ∧
      (doFindComponent ctxAB 0 "A").2.components = ctxAB.components ∧
      (doFindComponent ctxAB 0 "A").2.task_to_component_map =
        ctxAB.task_to_component_map :=
  claim_C1_cycle_fails_and_leaves_edges ctxAB 0 "A" "B"
    { depends_on_it := ["A"] } (by decide) (by decide) (by decide) (by decide)
    (Reach.step (show "A" ∈ depsOnItGraph ctxAB "B" by decide)
      (Reach.refl "A"))

/-- **C4.** A `FindComponent` call made from a fiber that is not recorded
in the task-to-component map fails with the `LookupOutsideConstruction`
error and returns the state completely unchanged. -/
theorem claim_C4_lookup_outside_construction (st : ComponentContext)
    (task : TaskId) (name : Name)
    (h : st.task_to_component_map.lookup task = none) :
    doFindComponent st task name =
      (.error (.runtimeError
        "FindComponent() can be called only from a task of component creation"),
       st) := by
  apply doFindComponent_error
  unfold addDependency getLoadingComponentName
  rw [h]

/-- Witness for C4: task 99 is not building anything in `ctxAB`. -/
theorem claim_C4_witness :
    doFindComponent ctxAB 99 "A" =
      (.error (.runtimeError
        "FindComponent() can be called only from a task of component creation"),
       ctxAB) :=
  claim_C4_lookup_outside_construction ctxAB 99 "A" (by decide)

/-- **C6.** When the calling component already has an edge to `name`,
`FindComponent`'s edge maintenance is skipped entirely: `AddDependency`
returns with the state untouched (in particular no cycle check is run —
note that no acyclicity or well-formedness hypothesis is needed here), and
`DoFindComponent` proceeds to return the target or wait for it (never an
error), leaving both edge sets unchanged. -/
theorem claim_C6_idempotent_edge_maintenance (st : ComponentContext)
    (task : TaskId) (name current : Name) (finfo info : ComponentInfo)
    (htask : st.task_to_component_map.lookup task = some current)
    (hcur : st.components.lookup current = some finfo)
    (hedge : finfo.it_depends_on.contains name = true)
    (hname : st.components.lookup name = some info) :
    addDependency st task name = (none, st) ∧
      (doFindComponent st task name).2.components = st.components ∧
      ((doFindComponent st task name).1 = .found ∨
        (doFindComponent st task name).1 = .waiting) := by
  have had : addDependency st task name = (none, st) := by
    unfold addDependency getLoadingComponentName
    rw [htask]
    dsimp only
    rw [hcur]
    dsimp only
    rw [hedge, if_pos rfl]
  refine ⟨had, ?_⟩
  unfold doFindComponent
  rw [had]
  dsimp only
  rw [hname]
  dsimp only
  cases info.component with
  | none => exact ⟨rfl, Or.inr rfl⟩
  | some c => exact ⟨rfl, Or.inl rfl⟩

/-- Witness for C6: in `ctxAB2` the edge `A → B` is already present and
task 0 (building `A`) looks `B` up again; nothing changes and the call
proceeds to wait for `B`. -/
theorem claim_C6_witness :
    addDependency ctxAB2 0 "B" = (none, ctxAB2) ∧
      (doFindComponent ctxAB2 0 "B").2.components = ctxAB2.components ∧
      ((doFindComponent ctxAB2 0 "B").1 = .found ∨
        (doFindComponent ctxAB2 0 "B").1 = .waiting) :=
  claim_C6_idempotent_edge_maintenance ctxAB2 0 "B" "A"
    { it_depends_on := ["B"] } { depends_on_it := ["A"] }
    (by decide) (by decide) (by decide) (by decide)

/-- **C5, counterexample.** The claim says the `CircularDependency` failure
delivered to the caller carries the full dependency path.  It does not: the
code logs the path (`LOG_ERROR`) and then throws
`std::runtime_error("circular components dependency")` with a fixed message.
Concretely, the cycle `B → A → B` of `ctxAB` and the differently named
cycle `D → C → D` of `ctxCD` produce different logged diagnostics but the
very same delivered failure value, so the failure cannot carry the path. -/
theorem claim_C5_counterexample :
    (doFindComponent ctxAB 0 "A").1 = (doFindComponent ctxCD 0 "C").1 ∧
      (doFindComponent ctxAB 0 "A").1 =
        .error (.runtimeError "circular components dependency") ∧
      (doFindComponent ctxAB 0 "A").2.log ≠
        (doFindComponent ctxCD 0 "C").2.log := by
  decide

/-- **C5, amended.** When `FindComponent` detects a cycle, the full
dependency chain (ending in the target of the proposed edge) is computed
and written to the log for diagnostics, while the failure delivered to the
caller is a `runtime_error` with the fixed message
"circular components dependency". -/
theorem claim_C5_amended_path_logged (st : ComponentContext)
    (task : TaskId) (name current : Name) (finfo : ComponentInfo)
    (hwf : GraphWF st)
    (htask : st.task_to_component_map.lookup task = some current)
    (hcur : st.components.lookup current = some finfo)
    (hnoedge : finfo.it_depends_on.contains name = false)
    (hcycle : Reach (depsOnItGraph st) current name) :
    (doFindComponent st task name).1 =
        .error (.runtimeError "circular components dependency") ∧
      ∃ chain, chain.getLast? = some name ∧
        (doFindComponent st task name).2.log = st.log ++
          [.text ("Resolving dependency " ++ current ++ " -> " ++ name),
           .text ("Found circular dependency between components: " ++
             String.intercalate " -> " chain)] := by
  have hmem : current ∈ st.keys :=
    lookup_isSome_mem_keys (by rw [hcur]; rfl)
  have hfound : (checkForDependencyCycle st current name).isSome = true :=
    (checkForDependencyCycle_isSome_iff st current name hwf hmem).mpr hcycle
  have had := addDependency_cycle st task name current finfo htask hcur
    hnoedge hfound
  rw [doFindComponent_error st task name _ _ had]
  refine ⟨rfl, (findDependencyPathDfs (depsOnItGraph st) name
    (st.components.length + 1) current [] []).2.2 ++ [name], ?_, rfl⟩
  exact List.getLast?_concat _

/-- Witness for the amended C5 at `ctxAB`. -/
theorem claim_C5_amended_witness :
    (doFindComponent ctxAB 0 "A").1 =
        .error (.runtimeError "circular components dependency") ∧
      ∃ chain, chain.getLast? = some "A" ∧
        (doFindComponent ctxAB 0 "A").2.log = ctxAB.log ++
          [.text ("Resolving dependency " ++ "B" ++ " -> " ++ "A"),
           .text ("Found circular dependency between components: " ++
             String.intercalate " -> " chain)] :=
  claim_C5_amended_path_logged ctxAB 0 "A" "B" { depends_on_it := ["A"] }
    (by decide) (by decide) (by decide) (by decide)
    (Reach.step (show "A" ∈ depsOnItGraph ctxAB "B" by decide)
      (Reach.refl "A"))

/-! ## The lockstep-edge invariant (C3) -/

theorem contains_addEdge (l : List Name) (n m : Name) :
    (addEdge l n).contains m = (l.contains m || (m == n)) := by
  unfold addEdge
  by_cases h : l.contains n = true
  · rw [if_pos h]
    by_cases hm : m = n
    · subst hm
      rw [h]
      simp
    · have hb : (m == n) = false := by simpa using hm
      simp [hb]
  · rw [if_neg h]
    simp only [List.contains_eq_any_beq, List.any_append, List.any_cons,
      List.any_nil, Bool.or_false]

theorem mem_addEdge (l : List Name) (n m : Name) :
    m ∈ addEdge l n ↔ (m ∈ l ∨ m = n) := by
  unfold addEdge
  split
  · next h =>
    constructor
    · exact Or.inl
    · intro h'
      rcases h' with h' | h'
      · exact h'
      · subst h'
        exact List.mem_of_elem_eq_true h
  · simp

theorem edgeSym_of_components_eq {st st' : ComponentContext}
    (h : st'.components = st.components) (hsym : EdgeSym st) : EdgeSym st' := by
  unfold EdgeSym ComponentContext.keys edgeSymAt at hsym ⊢
  rw [h]
  exact hsym

/-- Adding both half-edges of `current → name` (both names declared,
distinct) preserves the lockstep-edge invariant. -/
theorem edgeSym_after_add (st : ComponentContext) (current name : Name)
    (hsym : EdgeSym st) :
    EdgeSym { st with components := addBothEdges st.components current name } := by
  intro a ha b hb
  have hkeys : ∀ x : Name,
      x ∈ (addBothEdges st.components current name).map Prod.fst →
      x ∈ st.keys := by
    intro x hx
    unfold addBothEdges at hx
    rwa [keys_updateInfo, keys_updateInfo] at hx
  have ha' : a ∈ st.keys := hkeys a ha
  have hb' : b ∈ st.keys := hkeys b hb
  obtain ⟨ia, hia⟩ := Option.isSome_iff_exists.mp (mem_keys_lookup_isSome ha')
  obtain ⟨ib, hib⟩ := Option.isSome_iff_exists.mp (mem_keys_lookup_isSome hb')
  have hbase := hsym a ha' b hb'
  unfold edgeSymAt at hbase ⊢
  rw [hia, hib] at hbase
  unfold addBothEdges addItDependsOnF addDependsOnItF
  rw [lookup_updateInfo, lookup_updateInfo, lookup_updateInfo, lookup_updateInfo]
  by_cases hac : a = current <;> by_cases han : a = name <;>
    by_cases hbc : b = current <;> by_cases hbn : b = name <;>
      simp_all [contains_addEdge, beq_iff_eq, mem_addEdge]

/-- Adding only the forward half-edge towards an *undeclared* name (the
path on which `components_.at(name)` then throws) still preserves the
lockstep invariant over pairs of declared components: the dangling edge
names no declared component. -/
theorem edgeSym_after_half_add (st : ComponentContext) (current name : Name)
    (hname : st.components.lookup name = none) (hsym : EdgeSym st) :
    EdgeSym { st with components := updateInfo st.components current (addItDependsOnF name) } := by
  intro a ha b hb
  have hkeys : ∀ x : Name,
      x ∈ (updateInfo st.components current (addItDependsOnF name)).map Prod.fst →
      x ∈ st.keys := by
    intro x hx
    rwa [keys_updateInfo] at hx
  have ha' : a ∈ st.keys := hkeys a ha
  have hb' : b ∈ st.keys := hkeys b hb
  obtain ⟨ia, hia⟩ := Option.isSome_iff_exists.mp (mem_keys_lookup_isSome ha')
  obtain ⟨ib, hib⟩ := Option.isSome_iff_exists.mp (mem_keys_lookup_isSome hb')
  have hbn : b ≠ name := by
    intro h
    rw [h, hname] at hib
    cases hib
  have hbase := hsym a ha' b hb'
  unfold edgeSymAt at hbase ⊢
  rw [hia, hib] at hbase
  unfold addItDependsOnF
  rw [lookup_updateInfo, lookup_updateInfo]
  by_cases hac : a = current <;> by_cases hbc : b = current <;>
    simp_all [contains_addEdge, beq_iff_eq, mem_addEdge]

theorem addDependency_preserves_edgeSym (st : ComponentContext)
    (task : TaskId) (name : Name) (hsym : EdgeSym st) :
    EdgeSym (addDependency st task name).2 := by
  unfold addDependency
  split
  · exact hsym
  · next current heq =>
    split
    · exact hsym
    · next finfo hcur =>
      split
      · exact hsym
      · dsimp only
        split
        · exact edgeSym_of_components_eq rfl hsym
        · split
          · next hln =>
            have hnone : st.components.lookup name = none := by
              rw [lookup_updateInfo] at hln
              by_cases h : name = current
              · rw [if_pos h] at hln
                rw [h, hcur] at hln
                simp at hln
              · rwa [if_neg h] at hln
            exact edgeSym_of_components_eq rfl
              (edgeSym_after_half_add st current name hnone hsym)
          · exact edgeSym_of_components_eq rfl
              (edgeSym_after_add st current name hsym)

theorem doFindComponent_components_eq (st : ComponentContext) (task : TaskId)
    (name : Name) :
    (doFindComponent st task name).2.components =
      (addDependency st task name).2.components := by
  unfold doFindComponent
  split
  · next e st' heq => rw [heq]
  · next st' heq =>
    split
    · rw [heq]
    · next info _ =>
      cases info.component with
      | some c => rw [heq]
      | none => rw [heq]

/-- **C3.** For every pair of *declared* components `A` and `B`, and on
every path of `FindComponent` (including all failing ones), the invariant
"`A.it_depends_on` contains `B` iff `B.depends_on_it` contains `A`" is
preserved: the two half-edges are installed together or not at all.  (An
edge towards an undeclared name can leave a dangling forward entry before
`components_.at` throws, but that names no declared component and is
outside the claim's quantification.) -/
theorem claim_C3_half_edges_lockstep (st : ComponentContext) (task : TaskId)
    (name : Name) (hsym : EdgeSym st) :
    EdgeSym (addDependency st task name).2 ∧
      EdgeSym (doFindComponent st task name).2 := by
  have h1 := addDependency_preserves_edgeSym st task name hsym
  exact ⟨h1,
    edgeSym_of_components_eq (doFindComponent_components_eq st task name) h1⟩

/-- Witness for C3 at `ctxAB2` (task 0 building `A` re-requests `B`). -/
theorem claim_C3_witness :
    EdgeSym (addDependency ctxAB2 0 "B").2 ∧
      EdgeSym (doFindComponent ctxAB2 0 "B").2 :=
  claim_C3_half_edges_lockstep ctxAB2 0 "B" (by decide)

/-! ## Idempotence of CancelComponentsLoad (C9) -/

theorem setAll_setAll (l : List (Name × ComponentInfo)) (b b' : Bool) :
    setStageSwitchingCancelledAll (setStageSwitchingCancelledAll l b) b' =
      setStageSwitchingCancelledAll l b' := by
  unfold setStageSwitchingCancelledAll
  rw [List.map_map]
  rfl

theorem setAll_map_onLoadingCancelled (l : List (Name × ComponentInfo))
    (b : Bool) :
    setStageSwitchingCancelledAll
        (l.map fun p => (p.1, onLoadingCancelled p.2)) b =
      (setStageSwitchingCancelledAll l b).map
        fun p => (p.1, onLoadingCancelled p.2) := by
  unfold setStageSwitchingCancelledAll onLoadingCancelled
  rw [List.map_map, List.map_map]
  rfl

theorem cancelComponentsLoad_flag (st : ComponentContext) :
    (cancelComponentsLoad st).components_load_cancelled = true := by
  unfold cancelComponentsLoad cancelComponentLifetimeStageSwitching
  dsimp only
  cases h : st.components_load_cancelled with
  | true => rw [if_pos rfl]
  | false => rw [if_neg (by simp)]

theorem cancelAll_cancelComponentsLoad (st : ComponentContext) :
    cancelComponentLifetimeStageSwitching (cancelComponentsLoad st) =
      cancelComponentsLoad st := by
  unfold cancelComponentsLoad cancelComponentLifetimeStageSwitching
  dsimp only
  cases h : st.components_load_cancelled with
  | true =>
    rw [if_pos rfl]
    simp [setAll_setAll]
  | false =>
    rw [if_neg (by simp)]
    dsimp only
    simp [setAll_map_onLoadingCancelled, setAll_setAll]

theorem cancelComponentsLoad_idem (st : ComponentContext) :
    cancelComponentsLoad (cancelComponentsLoad st) = cancelComponentsLoad st := by
  conv_lhs => rw [cancelComponentsLoad]
  rw [cancelAll_cancelComponentsLoad]
  dsimp only
  rw [cancelComponentsLoad_flag, if_pos rfl]

/-- **C9.** `CancelComponentsLoad` is idempotent: `n + 1` calls (for any
`n`) leave the context exactly as one call does; and on the first call
(load-cancelled flag still clear) every component's `OnLoadingCancelled` is
delivered exactly once (each notification counter increments by one). -/
theorem claim_C9_cancel_components_load_idempotent (st : ComponentContext)
    (n : Nat) :
    cancelComponentsLoad^[n + 1] st = cancelComponentsLoad st ∧
      (st.components_load_cancelled = false →
        (cancelComponentsLoad st).components.map
            (fun p => p.2.on_loading_cancelled_calls) =
          st.components.map (fun p => p.2.on_loading_cancelled_calls + 1)) := by
  constructor
  · induction n generalizing st with
    | zero => rfl
    | succ m ih =>
      rw [Function.iterate_succ_apply, ih (cancelComponentsLoad st),
        cancelComponentsLoad_idem]
  · intro h
    unfold cancelComponentsLoad cancelComponentLifetimeStageSwitching
    rw [if_neg (by rw [h]; simp)]
    unfold setStageSwitchingCancelledAll onLoadingCancelled
    rw [List.map_map, List.map_map]
    rfl

/-- Witness for C9: two extra calls at `ctxAB2` collapse to one, and the
first call bumps each notification counter from 0 to 1. -/
theorem claim_C9_witness :
    cancelComponentsLoad^[2] ctxAB2 = cancelComponentsLoad ctxAB2 ∧
      (cancelComponentsLoad ctxAB2).components.map
          (fun p => p.2.on_loading_cancelled_calls) =
        ctxAB2.components.map (fun p => p.2.on_loading_cancelled_calls + 1) :=
  ⟨(claim_C9_cancel_components_load_idempotent ctxAB2 1).1,
   (claim_C9_cancel_components_load_idempotent ctxAB2 1).2 (by decide)⟩

/-! ## Lifecycle phase driver: the non-cancelling phases -/

theorem keys_setAll (l : List (Name × ComponentInfo)) (b : Bool) :
    (setStageSwitchingCancelledAll l b).map Prod.fst = l.map Prod.fst := by
  unfold setStageSwitchingCancelledAll
  rw [List.map_map]
  rfl

theorem allFlagsFalse_setAll (l : List (Name × ComponentInfo)) :
    AllFlagsFalse (setStageSwitchingCancelledAll l false) := by
  intro p hp
  unfold setStageSwitchingCancelledAll at hp
  obtain ⟨q, _, rfl⟩ := List.mem_map.mp hp
  rfl

theorem allCancelled_setAll (l : List (Name × ComponentInfo)) :
    AllCancelled (setStageSwitchingCancelledAll l true) := by
  intro p hp
  unfold setStageSwitchingCancelledAll at hp
  obtain ⟨q, _, rfl⟩ := List.mem_map.mp hp
  rfl

theorem updateInfo_mem (l : List (Name × ComponentInfo)) (name : Name)
    (f : ComponentInfo → ComponentInfo) :
    ∀ q ∈ updateInfo l name f,
      ∃ p ∈ l, q = if p.1 = name then (p.1, f p.2) else p := by
  intro q hq
  unfold updateInfo at hq
  obtain ⟨p, hp, rfl⟩ := List.mem_map.mp hq
  exact ⟨p, hp, rfl⟩

theorem waitThrowsCancelled_false (params : ComponentLifetimeStageSwitchingParams)
    (comps : List (Name × ComponentInfo)) (i : ComponentInfo)
    (hflags : AllFlagsFalse comps) :
    waitThrowsCancelled params comps i = false := by
  unfold waitThrowsCancelled
  rw [List.any_eq_false]
  intro n hn
  cases hl : comps.lookup n with
  | none => simp [hl]
  | some o =>
    simp [hl]
    intro _
    exact hflags (n, o) (lookup_mem hl)

/-- Characterisation of one fiber of a non-cancelling phase on a state with
all cancellation flags clear: the waits pass, the handler is invoked, the
prescribed log lines are appended, the stage is set unconditionally, and
only `StageSwitchingCancelled` escapes. -/
theorem processSingle_nc (params : ComponentLifetimeStageSwitchingParams)
    (hpar : params.allow_cancelling = false)
    (behavior : HandlerBehavior) (name : Name) (st : ComponentContext)
    (flag : Bool) (i : ComponentInfo)
    (hinfo : st.components.lookup name = some i)
    (hflags : AllFlagsFalse st.components) :
    processSingleComponentLifetimeStageSwitching params behavior name st flag =
      (ncThrown behavior,
       setStageOf { st with log := st.log ++ ncLog params.stage_switch_handler_name name behavior } name params.next_stage,
       flag) := by
  unfold processSingleComponentLifetimeStageSwitching
  rw [hinfo]
  dsimp only
  rw [waitThrowsCancelled_false params st.components i hflags,
    if_neg (by simp : ¬(false = true))]
  cases behavior with
  | ok => rfl
  | throwsCancel => simp [setStageOf, ncThrown, ncLog]
  | throwsOther =>
    rw [hpar]
    simp [setStageOf, ncThrown, ncLog]

theorem setStageOf_keys (st : ComponentContext) (name : Name)
    (s : ComponentLifetimeStage) :
    (setStageOf st name s).components.map Prod.fst =
      st.components.map Prod.fst := by
  unfold setStageOf
  dsimp only
  exact keys_updateInfo _ _ _

theorem setStageOf_mem_key (st : ComponentContext) (name : Name)
    (s : ComponentLifetimeStage) :
    ∀ q ∈ (setStageOf st name s).components, q.1 = name → q.2.stage = s := by
  intro q hq hkey
  unfold setStageOf at hq
  dsimp only at hq
  obtain ⟨p, hp, hqe⟩ := updateInfo_mem _ _ _ q hq
  by_cases hpn : p.1 = name
  · rw [if_pos hpn] at hqe
    rw [hqe]
  · rw [if_neg hpn] at hqe
    subst hqe
    exact absurd hkey hpn

theorem setStageOf_mem_ne (st : ComponentContext) (name : Name)
    (s : ComponentLifetimeStage) :
    ∀ q ∈ (setStageOf st name s).components, q.1 ≠ name →
      q ∈ st.components := by
  intro q hq hkey
  unfold setStageOf at hq
  dsimp only at hq
  obtain ⟨p, hp, hqe⟩ := updateInfo_mem _ _ _ q hq
  by_cases hpn : p.1 = name
  · rw [if_pos hpn] at hqe
    rw [hqe] at hkey
    exact absurd hpn hkey
  · rw [if_neg hpn] at hqe
    subst hqe
    exact hp

theorem setStageOf_flags (st : ComponentContext) (name : Name)
    (s : ComponentLifetimeStage) (h : AllFlagsFalse st.components) :
    AllFlagsFalse (setStageOf st name s).components := by
  intro q hq
  unfold setStageOf at hq
  dsimp only at hq
  obtain ⟨p, hp, hqe⟩ := updateInfo_mem _ _ _ q hq
  by_cases hpn : p.1 = name
  · rw [if_pos hpn] at hqe
    rw [hqe]
    exact h p hp
  · rw [if_neg hpn] at hqe
    subst hqe
    exact h q hp

theorem ncLog_events (h : String) (n : Name) (b : HandlerBehavior) :
    ∀ e ∈ ncLog h n b, eventOfHandler h e = true := by
  cases b <;> simp [ncLog, eventOfHandler]

theorem ncLog_called (h : String) (n : Name) (b : HandlerBehavior) :
    LogLine.handlerCalled h n ∈ ncLog h n b := by
  cases b <;> simp [ncLog]

theorem ncLog_error (h : String) (n : Name) :
    LogLine.handlerErrorLogged h n ∈ ncLog h n .throwsOther := by
  simp [ncLog]

theorem ncThrown_ne_other (b : HandlerBehavior) :
    ncThrown b ≠ some Thrown.otherException := by
  cases b <;> simp [ncThrown]

/-- The fan-out of a non-cancelling phase over a state with all
cancellation flags clear: the phase flag is untouched, keys and the task
map are preserved, flags stay clear, no fiber ends in an unexpected
exception, every processed component's stage is set to the target,
untouched entries survive unchanged, and the log grows by exactly the
per-component lifecycle lines of this phase — including an invocation line
for every component and an error line for every component whose handler
threw a non-cancel exception. -/
theorem runFibers_nc (params : ComponentLifetimeStageSwitchingParams)
    (hpar : params.allow_cancelling = false)
    (behaviors : Name → HandlerBehavior) :
    ∀ (names : List Name) (st : ComponentContext) (flag : Bool),
      (∀ n ∈ names, n ∈ st.components.map Prod.fst) →
      AllFlagsFalse st.components →
      ((runLifetimeStageSwitchingTasks params behaviors names st flag).2.2 = flag ∧
       (runLifetimeStageSwitchingTasks params behaviors names st flag).2.1.components.map Prod.fst = st.components.map Prod.fst ∧
       AllFlagsFalse (runLifetimeStageSwitchingTasks params behaviors names st flag).2.1.components ∧
       (runLifetimeStageSwitchingTasks params behaviors names st flag).2.1.task_to_component_map = st.task_to_component_map ∧
       (∀ nt ∈ (runLifetimeStageSwitchingTasks params behaviors names st flag).1, nt.2 ≠ some Thrown.otherException) ∧
       (runLifetimeStageSwitchingTasks params behaviors names st flag).1.map Prod.fst = names ∧
       (∀ p ∈ (runLifetimeStageSwitchingTasks params behaviors names st flag).2.1.components, p.1 ∈ names → p.2.stage = params.next_stage) ∧
       (∀ p ∈ (runLifetimeStageSwitchingTasks params behaviors names st flag).2.1.components, p.1 ∉ names → p ∈ st.components) ∧
       (∃ L, (runLifetimeStageSwitchingTasks params behaviors names st flag).2.1.log = st.log ++ L ∧
         (∀ e ∈ L, eventOfHandler params.stage_switch_handler_name e = true) ∧
         (∀ n ∈ names, LogLine.handlerCalled params.stage_switch_handler_name n ∈ L) ∧
         (∀ n ∈ names, behaviors n = HandlerBehavior.throwsOther →
           LogLine.handlerErrorLogged params.stage_switch_handler_name n ∈ L))) := by
  intro names
  induction names with
  | nil =>
    intro st flag _ hflags
    refine ⟨rfl, rfl, hflags, rfl, ?_, rfl, ?_, fun p hp _ => hp, [],
      by simp [runLifetimeStageSwitchingTasks], ?_, ?_, ?_⟩
    · intro nt hnt
      simp [runLifetimeStageSwitchingTasks] at hnt
    · intro p _ hmem
      simp at hmem
    · intro e he
      simp at he
    · intro n hn
      simp at hn
    · intro n hn
      simp at hn
  | cons n rest ih =>
    intro st flag hkeys hflags
    obtain ⟨i, hi⟩ := Option.isSome_iff_exists.mp
      (mem_keys_lookup_isSome (hkeys n (List.mem_cons_self _ _)))
    rw [runLifetimeStageSwitchingTasks,
      processSingle_nc params hpar (behaviors n) n st flag i hi hflags]
    dsimp only
    set st1 := setStageOf { st with log := st.log ++ ncLog params.stage_switch_handler_name n (behaviors n) } n params.next_stage with hst1def
    have hkeys1 : ∀ m ∈ rest, m ∈ st1.components.map Prod.fst := by
      intro m hm
      rw [hst1def, setStageOf_keys]
      exact hkeys m (List.mem_cons_of_mem _ hm)
    have hflags1 : AllFlagsFalse st1.components := by
      rw [hst1def]
      exact setStageOf_flags _ _ _ hflags
    obtain ⟨ihflag, ihkeys, ihflags, ihtask, ihthrown, ihnames, ihstage,
      ihpers, L, ihlog, ihev, ihcalled, iherr⟩ := ih st1 flag hkeys1 hflags1
    refine ⟨ihflag, ?_, ihflags, ihtask, ?_, ?_, ?_, ?_, ?_⟩
    · rw [ihkeys, hst1def, setStageOf_keys]
    · intro nt hnt
      rcases List.mem_cons.mp hnt with rfl | hnt'
      · exact ncThrown_ne_other _
      · exact ihthrown nt hnt'
    · rw [List.map_cons, ihnames]
    · intro p hp hmem
      by_cases hrest : p.1 ∈ rest
      · exact ihstage p hp hrest
      · have hp1 : p ∈ st1.components := ihpers p hp hrest
        rcases List.mem_cons.mp hmem with hpn | hpn
        · exact setStageOf_mem_key _ _ _ p hp1 hpn
        · exact absurd hpn hrest
    · intro p hp hmem
      have hnrest : p.1 ∉ rest := fun h => hmem (List.mem_cons_of_mem _ h)
      have hnn : p.1 ≠ n := fun h => hmem (h ▸ List.mem_cons_self _ _)
      exact setStageOf_mem_ne _ _ _ p (ihpers p hp hnrest) hnn
    · refine ⟨ncLog params.stage_switch_handler_name n (behaviors n) ++ L,
        ?_, ?_, ?_, ?_⟩
      · rw [ihlog, hst1def]
        simp [setStageOf, List.append_assoc]
      · intro e he
        rcases List.mem_append.mp he with he' | he'
        · exact ncLog_events _ _ _ e he'
        · exact ihev e he'
      · intro m hm
        rcases List.mem_cons.mp hm with rfl | hm'
        · exact List.mem_append.mpr (Or.inl (ncLog_called _ _ _))
        · exact List.mem_append.mpr (Or.inr (ihcalled m hm'))
      · intro m hm hb
        rcases List.mem_cons.mp hm with rfl | hm'
        · rw [hb]
          exact List.mem_append.mpr (Or.inl (ncLog_error _ _))
        · exact List.mem_append.mpr (Or.inr (iherr m hm' hb))

theorem runFibers_names (params : ComponentLifetimeStageSwitchingParams)
    (behaviors : Name → HandlerBehavior) :
    ∀ names st flag,
      (runLifetimeStageSwitchingTasks params behaviors names st flag).1.map
        Prod.fst = names := by
  intro names
  induction names with
  | nil => intro st flag; rfl
  | cons n rest ih =>
    intro st flag
    rw [runLifetimeStageSwitchingTasks]
    dsimp only
    rw [List.map_cons, ih]

theorem await_no_other (params : ComponentLifetimeStageSwitchingParams) :
    ∀ (rs : List (Name × Option Thrown)) (st : ComponentContext) (flag : Bool),
      (∀ nt ∈ rs, nt.2 ≠ some Thrown.otherException) →
      awaitLifetimeStageSwitchingTasks params rs st flag =
        (none, rs.map Prod.fst, st, flag) := by
  intro rs
  induction rs with
  | nil => intro st flag _; rfl
  | cons nt rest ih =>
    intro st flag hno
    rcases nt with ⟨n, t⟩
    have hrec := ih st flag (fun x hx => hno x (List.mem_cons_of_mem _ hx))
    cases t with
    | none =>
      simp only [awaitLifetimeStageSwitchingTasks]
      rw [hrec]
      rfl
    | some th =>
      cases th with
      | stageSwitchingCancelled =>
        simp only [awaitLifetimeStageSwitchingTasks]
        rw [hrec]
        rfl
      | otherException =>
        exact absurd rfl (hno (n, some Thrown.otherException)
          (List.mem_cons_self _ _))

theorem await_joined (params : ComponentLifetimeStageSwitchingParams) :
    ∀ (rs : List (Name × Option Thrown)) (st : ComponentContext) (flag : Bool),
      (awaitLifetimeStageSwitchingTasks params rs st flag).2.1 =
        rs.map Prod.fst := by
  intro rs
  induction rs with
  | nil => intro st flag; rfl
  | cons nt rest ih =>
    intro st flag
    rcases nt with ⟨n, t⟩
    cases t with
    | none =>
      simp only [awaitLifetimeStageSwitchingTasks]
      rw [ih]
      rfl
    | some th =>
      cases th with
      | stageSwitchingCancelled =>
        simp only [awaitLifetimeStageSwitchingTasks]
        rw [ih]
        rfl
      | otherException =>
        simp only [awaitLifetimeStageSwitchingTasks]
        rfl

theorem await_ne_ssc (params : ComponentLifetimeStageSwitchingParams) :
    ∀ (rs : List (Name × Option Thrown)) (st : ComponentContext) (flag : Bool),
      (awaitLifetimeStageSwitchingTasks params rs st flag).1 ≠
        some (DriverExc.fromFiber Thrown.stageSwitchingCancelled) := by
  intro rs
  induction rs with
  | nil => intro st flag h; simp [awaitLifetimeStageSwitchingTasks] at h
  | cons nt rest ih =>
    intro st flag
    rcases nt with ⟨n, t⟩
    cases t with
    | none =>
      simp only [awaitLifetimeStageSwitchingTasks]
      exact ih st flag
    | some th =>
      cases th with
      | stageSwitchingCancelled =>
        simp only [awaitLifetimeStageSwitchingTasks]
        exact ih st flag
      | otherException =>
        simp [awaitLifetimeStageSwitchingTasks]

theorem allCancelled_updateInfo (l : List (Name × ComponentInfo)) (name : Name)
    (f : ComponentInfo → ComponentInfo) (h : AllCancelled l)
    (hf : ∀ i, i.stage_switching_cancelled = true →
      (f i).stage_switching_cancelled = true) :
    AllCancelled (updateInfo l name f) := by
  intro q hq
  obtain ⟨p, hp, hqe⟩ := updateInfo_mem _ _ _ q hq
  by_cases hpn : p.1 = name
  · rw [if_pos hpn] at hqe
    rw [hqe]
    exact hf p.2 (h p hp)
  · rw [if_neg hpn] at hqe
    subst hqe
    exact h q hp

theorem allCancelled_setStageOf (st : ComponentContext) (name : Name)
    (s : ComponentLifetimeStage) (h : AllCancelled st.components) :
    AllCancelled (setStageOf st name s).components := by
  unfold setStageOf
  dsimp only
  exact allCancelled_updateInfo _ _ _ h (fun i hi => hi)

/-- One fiber preserves the invariant "if the phase flag is set, every
component is flagged cancelled": the only branch that raises the flag also
broadcasts the cancellation (or finds it already broadcast). -/
theorem processSingle_flagInv (params : ComponentLifetimeStageSwitchingParams)
    (behavior : HandlerBehavior) (name : Name) (st : ComponentContext)
    (flag : Bool) (h : flag = true → AllCancelled st.components) :
    (processSingleComponentLifetimeStageSwitching params behavior name st
      flag).2.2 = true →
      AllCancelled (processSingleComponentLifetimeStageSwitching params
        behavior name st flag).2.1.components := by
  unfold processSingleComponentLifetimeStageSwitching
  split
  · exact fun hf => h hf
  · next info hinfo =>
    split
    · intro hf
      exact allCancelled_setStageOf _ _ _ (h hf)
    · cases behavior with
      | ok =>
        intro hf
        exact allCancelled_setStageOf _ _ _ (h hf)
      | throwsCancel =>
        intro hf
        exact allCancelled_setStageOf _ _ _ (h hf)
      | throwsOther =>
        dsimp only
        by_cases hac : params.allow_cancelling = true
        · rw [if_pos hac]
          intro _
          cases hfl : flag with
          | true =>
            rw [if_pos rfl]
            apply allCancelled_setStageOf
            dsimp only
            exact allCancelled_updateInfo _ _ _ (h hfl) (fun i _ => rfl)
          | false =>
            rw [if_neg (by simp)]
            apply allCancelled_setStageOf
            unfold cancelComponentLifetimeStageSwitching
            dsimp only
            exact allCancelled_setAll _
        · rw [if_neg hac]
          intro hf
          exact allCancelled_setStageOf _ _ _ (h hf)

theorem runFibers_flagInv (params : ComponentLifetimeStageSwitchingParams)
    (behaviors : Name → HandlerBehavior) :
    ∀ names st flag, (flag = true → AllCancelled st.components) →
      ((runLifetimeStageSwitchingTasks params behaviors names st flag).2.2 =
          true →
        AllCancelled (runLifetimeStageSwitchingTasks params behaviors names st
          flag).2.1.components) := by
  intro names
  induction names with
  | nil => intro st flag h; exact h
  | cons n rest ih =>
    intro st flag h
    rw [runLifetimeStageSwitchingTasks]
    dsimp only
    exact ih _ _ (processSingle_flagInv params (behaviors n) n st flag h)

/-- The await loop on a real unexpected exception: it flips the phase flag
(broadcasting the cancellation if nobody had), joins everything, and
rethrows; the final state has every component flagged. -/
theorem await_other (params : ComponentLifetimeStageSwitchingParams)
    (hac : params.allow_cancelling = true) :
    ∀ (rs : List (Name × Option Thrown)) (st : ComponentContext) (flag : Bool),
      (flag = true → AllCancelled st.components) →
      (awaitLifetimeStageSwitchingTasks params rs st flag).1 =
        some (DriverExc.fromFiber Thrown.otherException) →
      ((awaitLifetimeStageSwitchingTasks params rs st flag).2.2.2 = true ∧
       AllCancelled (awaitLifetimeStageSwitchingTasks params rs st
         flag).2.2.1.components) := by
  intro rs
  induction rs with
  | nil =>
    intro st flag _ he
    simp [awaitLifetimeStageSwitchingTasks] at he
  | cons nt rest ih =>
    intro st flag hinv he
    rcases nt with ⟨n, t⟩
    cases t with
    | none =>
      simp only [awaitLifetimeStageSwitchingTasks] at he ⊢
      exact ih st flag hinv he
    | some th =>
      cases th with
      | stageSwitchingCancelled =>
        simp only [awaitLifetimeStageSwitchingTasks] at he ⊢
        exact ih st flag hinv he
      | otherException =>
        simp only [awaitLifetimeStageSwitchingTasks]
        rw [hac]
        refine ⟨by simp, ?_⟩
        cases hfl : flag with
        | true =>
          simp only [Bool.not_true, Bool.and_false,
            if_neg (by simp : ¬(false = true))]
          exact hinv hfl
        | false =>
          simp only [Bool.not_false, Bool.and_true, if_pos rfl]
          apply allCancelled_setAll

/-- Complete characterisation of a non-cancelling phase of the driver:
it returns without an exception, joins every fiber, preserves the key set
and the task map, moves every component to the target stage, and appends
to the log exactly this phase's per-component lines — an invocation line
for every component, and an error line for each component whose handler
threw a non-cancel exception. -/
theorem processAll_nc (params : ComponentLifetimeStageSwitchingParams)
    (hpar : params.allow_cancelling = false)
    (behaviors : Name → HandlerBehavior) (st : ComponentContext) :
    ((processAllComponentLifetimeStageSwitchings params behaviors st).1 = none ∧
     (processAllComponentLifetimeStageSwitchings params behaviors st).2.1 = st.components.map Prod.fst ∧
     (processAllComponentLifetimeStageSwitchings params behaviors st).2.2.components.map Prod.fst = st.components.map Prod.fst ∧
     AllStages (processAllComponentLifetimeStageSwitchings params behaviors st).2.2.components params.next_stage ∧
     (processAllComponentLifetimeStageSwitchings params behaviors st).2.2.task_to_component_map = st.task_to_component_map ∧
     (∃ L, (processAllComponentLifetimeStageSwitchings params behaviors st).2.2.log = st.log ++ L ∧
       (∀ e ∈ L, eventOfHandler params.stage_switch_handler_name e = true) ∧
       (∀ n ∈ st.components.map Prod.fst,
         LogLine.handlerCalled params.stage_switch_handler_name n ∈ L) ∧
       (∀ n ∈ st.components.map Prod.fst,
         behaviors n = HandlerBehavior.throwsOther →
           LogLine.handlerErrorLogged params.stage_switch_handler_name n ∈ L))) := by
  have hprepkeys : (prepareComponentLifetimeStageSwitching st).components.map
      Prod.fst = st.components.map Prod.fst := by
    unfold prepareComponentLifetimeStageSwitching
    dsimp only
    exact keys_setAll _ _
  have hprepflags : AllFlagsFalse
      (prepareComponentLifetimeStageSwitching st).components := by
    unfold prepareComponentLifetimeStageSwitching
    dsimp only
    exact allFlagsFalse_setAll _
  obtain ⟨hflag, hkeys, hflags, htask, hthrown, hnames, hstage, hpers, L,
      hlog, hev, hcalled, herr⟩ :=
    runFibers_nc params hpar behaviors
      ((prepareComponentLifetimeStageSwitching st).components.map Prod.fst)
      (prepareComponentLifetimeStageSwitching st) false (fun n h => h)
      hprepflags
  unfold processAllComponentLifetimeStageSwitchings
  dsimp only
  set r := runLifetimeStageSwitchingTasks params behaviors
    ((prepareComponentLifetimeStageSwitching st).components.map Prod.fst)
    (prepareComponentLifetimeStageSwitching st) false with hrdef
  have hawait := await_no_other params r.1 r.2.1 r.2.2 hthrown
  rw [hawait]
  dsimp only
  rw [hflag, if_neg (by simp : ¬(false = true))]
  refine ⟨rfl, ?_, ?_, ?_, ?_, ?_⟩
  · rw [runFibers_names, hprepkeys]
  · rw [hkeys, hprepkeys]
  · intro p hp
    refine hstage p hp ?_
    rw [← hkeys]
    exact List.mem_map_of_mem Prod.fst hp
  · exact htask
  · exact ⟨L, hlog, hev,
      fun n hn => hcalled n (by rwa [hprepkeys]),
      fun n hn hb => herr n (by rwa [hprepkeys]) hb⟩

/-- **C7.** In a lifecycle phase with `allow_cancelling` false (i.e. the
`OnAllComponentsAreStopping` and `ClearComponents` phases), a component
whose stage-switch handler throws a non-cancellation exception gets the
exception logged (`LOG_ERROR` line) and not propagated: the driver returns
no exception, every fiber is joined, the phase runs for all the other
components too, and every component — the failing one included — still
has its stage set to the phase's `next_stage`. -/
theorem claim_C7_non_cancelling_phase_logs_and_continues
    (next_stage : ComponentLifetimeStage) (handler : String)
    (dep : DependencyType) (behaviors : Name → HandlerBehavior)
    (st : ComponentContext) :
    ((processAllComponentLifetimeStageSwitchings ⟨next_stage, handler, dep, false⟩ behaviors st).1 = none ∧
     (processAllComponentLifetimeStageSwitchings ⟨next_stage, handler, dep, false⟩ behaviors st).2.1 = st.components.map Prod.fst ∧
     AllStages (processAllComponentLifetimeStageSwitchings ⟨next_stage, handler, dep, false⟩ behaviors st).2.2.components next_stage ∧
     (∀ n ∈ st.components.map Prod.fst,
       behaviors n = HandlerBehavior.throwsOther →
         LogLine.handlerErrorLogged handler n ∈
           (processAllComponentLifetimeStageSwitchings ⟨next_stage, handler, dep, false⟩ behaviors st).2.2.log)) := by
  obtain ⟨h1, h2, _, h4, _, L, hlog, _, _, herr⟩ :=
    processAll_nc ⟨next_stage, handler, dep, false⟩ rfl behaviors st
  refine ⟨h1, h2, h4, ?_⟩
  intro n hn hb
  rw [hlog]
  exact List.mem_append.mpr (Or.inr (herr n hn hb))

/-- Witness for C7: the stopping phase over `ctxAB` with `A`'s handler
throwing. -/
theorem claim_C7_witness :
    ((processAllComponentLifetimeStageSwitchings ⟨ComponentLifetimeStage.kReadyForClearing, "OnAllComponentsAreStopping()", DependencyType.kInverted, false⟩ (fun n => if n = "A" then HandlerBehavior.throwsOther else HandlerBehavior.ok) ctxAB).1 = none ∧
     (processAllComponentLifetimeStageSwitchings ⟨ComponentLifetimeStage.kReadyForClearing, "OnAllComponentsAreStopping()", DependencyType.kInverted, false⟩ (fun n => if n = "A" then HandlerBehavior.throwsOther else HandlerBehavior.ok) ctxAB).2.1 = ctxAB.components.map Prod.fst ∧
     AllStages (processAllComponentLifetimeStageSwitchings ⟨ComponentLifetimeStage.kReadyForClearing, "OnAllComponentsAreStopping()", DependencyType.kInverted, false⟩ (fun n => if n = "A" then HandlerBehavior.throwsOther else HandlerBehavior.ok) ctxAB).2.2.components ComponentLifetimeStage.kReadyForClearing ∧
     (∀ n ∈ ctxAB.components.map Prod.fst,
       (fun n => if n = "A" then HandlerBehavior.throwsOther else HandlerBehavior.ok) n = HandlerBehavior.throwsOther →
         LogLine.handlerErrorLogged "OnAllComponentsAreStopping()" n ∈
           (processAllComponentLifetimeStageSwitchings ⟨ComponentLifetimeStage.kReadyForClearing, "OnAllComponentsAreStopping()", DependencyType.kInverted, false⟩ (fun n => if n = "A" then HandlerBehavior.throwsOther else HandlerBehavior.ok) ctxAB).2.2.log)) :=
  claim_C7_non_cancelling_phase_logs_and_continues
    ComponentLifetimeStage.kReadyForClearing "OnAllComponentsAreStopping()"
    DependencyType.kInverted
    (fun n => if n = "A" then HandlerBehavior.throwsOther else HandlerBehavior.ok)
    ctxAB

/-- **C8.** In the phase driver, for every phase: fibers are joined on all
exit paths (the joined list is always the full component list, in spawn
order); `StageSwitchingCancelled` exceptions from individual fibers are
swallowed (the driver never propagates one); and when a genuinely
unexpected exception escapes a fiber, by the time the driver re-raises it
the phase has been cancelled globally — `stage_switching_cancelled` is set
on every `ComponentInfo`, unblocking all `WaitStage` calls — with every
remaining fiber joined before the re-raise. -/
theorem claim_C8_driver_joins_and_cancels
    (params : ComponentLifetimeStageSwitchingParams)
    (behaviors : Name → HandlerBehavior) (st : ComponentContext) :
    ((processAllComponentLifetimeStageSwitchings params behaviors st).2.1 = st.components.map Prod.fst ∧
     (processAllComponentLifetimeStageSwitchings params behaviors st).1 ≠ some (DriverExc.fromFiber Thrown.stageSwitchingCancelled) ∧
     ((processAllComponentLifetimeStageSwitchings params behaviors st).1 = some (DriverExc.fromFiber Thrown.otherException) →
       AllCancelled (processAllComponentLifetimeStageSwitchings params behaviors st).2.2.components)) := by
  have hprepkeys : (prepareComponentLifetimeStageSwitching st).components.map
      Prod.fst = st.components.map Prod.fst := by
    unfold prepareComponentLifetimeStageSwitching
    dsimp only
    exact keys_setAll _ _
  have hprepflags : AllFlagsFalse
      (prepareComponentLifetimeStageSwitching st).components := by
    unfold prepareComponentLifetimeStageSwitching
    dsimp only
    exact allFlagsFalse_setAll _
  unfold processAllComponentLifetimeStageSwitchings
  dsimp only
  set r := runLifetimeStageSwitchingTasks params behaviors
    ((prepareComponentLifetimeStageSwitching st).components.map Prod.fst)
    (prepareComponentLifetimeStageSwitching st) false with hrdef
  have hjoin : (awaitLifetimeStageSwitchingTasks params r.1 r.2.1 r.2.2).2.1 =
      st.components.map Prod.fst := by
    rw [await_joined, hrdef, runFibers_names, hprepkeys]
  have hnossc := await_ne_ssc params r.1 r.2.1 r.2.2
  rcases ha : awaitLifetimeStageSwitchingTasks params r.1 r.2.1 r.2.2 with
    ⟨e, joined, stA, flagA⟩
  rw [ha] at hjoin hnossc
  cases e with
  | none =>
    dsimp only
    cases flagA with
    | true =>
      rw [if_pos rfl]
      exact ⟨hjoin, by simp, by simp⟩
    | false =>
      rw [if_neg (by simp : ¬(false = true))]
      exact ⟨hjoin, by simp, by simp⟩
  | some e' =>
    dsimp only
    refine ⟨hjoin, by simpa using hnossc, ?_⟩
    intro he'
    have he'' : e' = DriverExc.fromFiber Thrown.otherException := by
      simpa using he'
    subst he''
    by_cases hac : params.allow_cancelling = true
    · have hinv : r.2.2 = true → AllCancelled r.2.1.components := by
        rw [hrdef]
        exact runFibers_flagInv params behaviors _ _ false
          (fun h => absurd h (by simp))
      have := await_other params hac r.1 r.2.1 r.2.2 hinv (by rw [ha])
      rw [ha] at this
      exact this.2
    · have hpar : params.allow_cancelling = false := Bool.of_not_eq_true hac
      obtain ⟨_, _, _, _, hthrown, _⟩ :=
        runFibers_nc params hpar behaviors
          ((prepareComponentLifetimeStageSwitching st).components.map Prod.fst)
          (prepareComponentLifetimeStageSwitching st) false (fun n h => h)
          hprepflags
      have := await_no_other params r.1 r.2.1 r.2.2 (by rw [hrdef]; exact hthrown)
      rw [ha] at this
      simp at this

/-- Witness for C8: the cancelling `OnAllComponentsLoaded` phase over
`ctxAB` where `A`'s handler throws; the driver re-raises the exception with
every component flagged cancelled and both fibers joined. -/
theorem claim_C8_witness :
    ((processAllComponentLifetimeStageSwitchings ⟨ComponentLifetimeStage.kRunning, "OnAllComponentsLoaded()", DependencyType.kNormal, true⟩ (fun n => if n = "A" then HandlerBehavior.throwsOther else HandlerBehavior.ok) ctxAB).2.1 = ctxAB.components.map Prod.fst ∧
     AllCancelled (processAllComponentLifetimeStageSwitchings ⟨ComponentLifetimeStage.kRunning, "OnAllComponentsLoaded()", DependencyType.kNormal, true⟩ (fun n => if n = "A" then HandlerBehavior.throwsOther else HandlerBehavior.ok) ctxAB).2.2.components) :=
  ⟨(claim_C8_driver_joins_and_cancels ⟨ComponentLifetimeStage.kRunning, "OnAllComponentsLoaded()", DependencyType.kNormal, true⟩ (fun n => if n = "A" then HandlerBehavior.throwsOther else HandlerBehavior.ok) ctxAB).1,
   (claim_C8_driver_joins_and_cancels ⟨ComponentLifetimeStage.kRunning, "OnAllComponentsLoaded()", DependencyType.kNormal, true⟩ (fun n => if n = "A" then HandlerBehavior.throwsOther else HandlerBehavior.ok) ctxAB).2.2 (by decide)⟩

/-- **C10.** `ClearComponents` itself runs the complete
`OnAllComponentsAreStopping` phase — advancing every component to
`kReadyForClearing` and delivering the stopping notification to every
component — before the clearing phase that returns all stages to `kNull`:
a caller that invokes only `ClearComponents` still gets every stopping
notification delivered first (the log contains a stopping invocation line
for every component in the segment `L1` written before the clearing
segment `L2`, and no clearing invocation occurs in `L1`). -/
theorem claim_C10_clear_runs_stopping_first (b1 b2 : Name → HandlerBehavior)
    (st : ComponentContext) :
    ((clearComponents b1 b2 st).1 = none ∧
     AllStages (onAllComponentsAreStopping b1 (stopPrintAddingComponentsTask st)).2.2.components ComponentLifetimeStage.kReadyForClearing ∧
     AllStages (clearComponents b1 b2 st).2.components ComponentLifetimeStage.kNull ∧
     (∃ L1 L2,
       (onAllComponentsAreStopping b1 (stopPrintAddingComponentsTask st)).2.2.log = st.log ++ L1 ∧
       (clearComponents b1 b2 st).2.log = st.log ++ L1 ++ L2 ∧
       (∀ n ∈ st.components.map Prod.fst,
         LogLine.handlerCalled "OnAllComponentsAreStopping()" n ∈ L1 ∧
         LogLine.handlerCalled "ClearComponent()" n ∈ L2) ∧
       (∀ n : Name, LogLine.handlerCalled "ClearComponent()" n ∉ L1))) := by
  obtain ⟨h1a, _, h1keys, h1stage, _, L1, h1log, h1ev, h1called, _⟩ :=
    processAll_nc onAllComponentsAreStoppingParams rfl b1
      (stopPrintAddingComponentsTask st)
  rcases hp1 : onAllComponentsAreStopping b1 (stopPrintAddingComponentsTask st)
    with ⟨e1, j1, st1⟩
  have hoas : onAllComponentsAreStopping b1 (stopPrintAddingComponentsTask st) =
      processAllComponentLifetimeStageSwitchings
        onAllComponentsAreStoppingParams b1 (stopPrintAddingComponentsTask st) :=
    rfl
  rw [hoas] at hp1
  rw [hp1] at h1a h1keys h1stage h1log
  dsimp only at h1a h1keys h1stage h1log
  subst h1a
  obtain ⟨h2a, _, _, h2stage, _, L2, h2log, _, h2called, _⟩ :=
    processAll_nc clearComponentsParams rfl b2 st1
  have hclear : clearComponents b1 b2 st =
      ((processAllComponentLifetimeStageSwitchings clearComponentsParams b2
          st1).1,
       (processAllComponentLifetimeStageSwitchings clearComponentsParams b2
          st1).2.2) := by
    unfold clearComponents
    dsimp only
    rw [hoas, hp1]
  rw [hclear]
  dsimp only
  refine ⟨h2a, h1stage, h2stage, L1, L2, h1log, ?_, ?_, ?_⟩
  · rw [h2log, h1log]
    rfl
  · intro n hn
    constructor
    · exact h1called n hn
    · refine h2called n ?_
      rw [h1keys]
      exact hn
  · intro n hmem
    have := h1ev _ hmem
    simp only [eventOfHandler] at this
    exact absurd this (by decide)

/-- Witness for C10 at `ctxAB` with all handlers succeeding. -/
theorem claim_C10_witness :
    ((clearComponents (fun _ => HandlerBehavior.ok) (fun _ => HandlerBehavior.ok) ctxAB).1 = none ∧
     AllStages (onAllComponentsAreStopping (fun _ => HandlerBehavior.ok) (stopPrintAddingComponentsTask ctxAB)).2.2.components ComponentLifetimeStage.kReadyForClearing ∧
     AllStages (clearComponents (fun _ => HandlerBehavior.ok) (fun _ => HandlerBehavior.ok) ctxAB).2.components ComponentLifetimeStage.kNull ∧
     (∃ L1 L2,
       (onAllComponentsAreStopping (fun _ => HandlerBehavior.ok) (stopPrintAddingComponentsTask ctxAB)).2.2.log = ctxAB.log ++ L1 ∧
       (clearComponents (fun _ => HandlerBehavior.ok) (fun _ => HandlerBehavior.ok) ctxAB).2.log = ctxAB.log ++ L1 ++ L2 ∧
       (∀ n ∈ ctxAB.components.map Prod.fst,
         LogLine.handlerCalled "OnAllComponentsAreStopping()" n ∈ L1 ∧
         LogLine.handlerCalled "ClearComponent()" n ∈ L2) ∧
       (∀ n : Name, LogLine.handlerCalled "ClearComponent()" n ∉ L1))) :=
  claim_C10_clear_runs_stopping_first (fun _ => HandlerBehavior.ok)
    (fun _ => HandlerBehavior.ok) ctxAB

end Components
